import Mathlib

/-!
Verification of the security/hardening layer of the 21st.dev magic-mcp fork:
shallow embedding of the CORS handler, rate limiter, session token manager,
API cache, path validator, shell/URL sanitizer and callback-server request
handler, with theorems checking the specified properties against the code.

Strings from the TypeScript source are modelled as `List Char`; JavaScript
`number` time values (all integral in the source) are modelled as `Int`.
-/

set_option maxRecDepth 4096

/-- Predicate startsWithL pre s is true iff `pre` is a prefix of `s`
(model of JS `String.prototype.startsWith`). -/
def startsWithL : List Char → List Char → Bool
  | [], _ => true
  | _ :: _, [] => false
  | p :: ps, c :: cs => p == c && startsWithL ps cs

/-- Function dropPfx pre s returns `some rest` iff `s = pre ++ rest`. -/
def dropPfx : List Char → List Char → Option (List Char)
  | [], s => some s
  | _ :: _, [] => none
  | p :: ps, c :: cs => if p = c then dropPfx ps cs else none

/-- Predicate containsSeq needle hay is true iff `needle` occurs contiguously in `hay`
(model of JS `String.prototype.includes` / an unanchored regex literal). -/
def containsSeq (needle : List Char) : List Char → Bool
  | [] => startsWithL needle []
  | c :: cs => startsWithL needle (c :: cs) || containsSeq needle cs

/-- Characters removed by JS `String.prototype.trim` (ECMAScript white space
and line terminators; the common code points). -/
def isJsWhitespace (c : Char) : Bool :=
  c == ' ' || c == '\t' || c == '\n' || c == '\r' ||
  c == '\x0b' || c == '\x0c' || c == ' ' || c == '﻿'

/-- Model of JS `String.prototype.trim`. -/
def jsTrim (s : List Char) : List Char :=
  (s.dropWhile (fun c => isJsWhitespace c)).reverse.dropWhile
    (fun c => isJsWhitespace c) |>.reverse

/-- Nonempty all-digit string: model of the regex fragment `\d+`. -/
def isDigits (l : List Char) : Bool :=
  !l.isEmpty && l.all (fun c => c.isDigit)

/-- Model of the regex fragment `(:\d+)?$`: the remainder after the host is
either empty or a colon followed by one or more digits. -/
def optPort : List Char → Bool
  | [] => true
  | c :: cs => c == ':' && isDigits cs

/-- The two scheme prefixes accepted by `^https?:\/\/`. -/
def schemePrefixes : List (List Char) := ["http://".data, "https://".data]

/-- Strip `http://` or `https://` from the front (model of `^https?:\/\/`). -/
def stripScheme (l : List Char) : Option (List Char) :=
  match dropPfx "http://".data l with
  | some r => some r
  | none => dropPfx "https://".data l

/-- Matcher for a localhost pattern `^https?:\/\/<host>(:\d+)?$`
with a literal `host` (the three `LOCALHOST_PATTERNS` of cors-handler.ts). -/
def matchHostPort (host : List Char) (l : List Char) : Bool :=
  match stripScheme l with
  | some r =>
    match dropPfx host r with
    | some rest => optPort rest
    | none => false
  | none => false

/-- Tail of a DNS label: zero or more `[a-zA-Z0-9-]` ending in `[a-zA-Z0-9]`
(model of the regex fragment `([a-zA-Z0-9-]*[a-zA-Z0-9])?`). -/
def validTail : List Char → Bool
  | [] => true
  | [c] => c.isAlphanum
  | c :: cs => (c.isAlphanum || c == '-') && validTail cs

/-- A DNS label per the cors-handler.ts subdomain regex:
`[a-zA-Z0-9]([a-zA-Z0-9-]*[a-zA-Z0-9])?`. -/
def validLabel : List Char → Bool
  | [] => false
  | c :: cs => c.isAlphanum && validTail cs

/-- Split a char list on a separator char; always returns a nonempty list of
components whose dot-joined concatenation is the input. -/
def splitOnChar (sep : Char) : List Char → List (List Char)
  | [] => [[]]
  | c :: cs =>
    if c = sep then [] :: splitOnChar sep cs
    else
      match splitOnChar sep cs with
      | [] => [[c]]
      | h :: t => (c :: h) :: t

/-- Join components with `.` (left inverse of `splitOnChar '.'`). -/
def joinDots : List (List Char) → List Char
  | [] => []
  | [x] => x
  | x :: y :: ys => x ++ '.' :: joinDots (y :: ys)

/-- Split at the first `:`, returning the parts before and after it. -/
def splitFirstColon : List Char → Option (List Char × List Char)
  | [] => none
  | c :: cs =>
    if c = ':' then some ([], cs)
    else
      match splitFirstColon cs with
      | some (a, b) => some (c :: a, b)
      | none => none

/-- Host check of the `TWENTY_FIRST_DEV_PATTERN` regex: the dot-separated
components are zero or more valid labels followed by `21st` and `dev`. -/
def check21stComps (comps : List (List Char)) : Bool :=
  match comps.reverse with
  | dev :: st :: labs =>
    dev == "dev".data && st == "21st".data && labs.all validLabel
  | _ => false

/-- Matcher for `TWENTY_FIRST_DEV_PATTERN`:
`^https?:\/\/([a-zA-Z0-9]([a-zA-Z0-9-]*[a-zA-Z0-9])?\.)*21st\.dev(:\d+)?$`.
Since labels and `21st.dev` contain no colon, the port split at the first
colon is faithful to the anchored regex. -/
def match21st (l : List Char) : Bool :=
  match stripScheme l with
  | none => false
  | some r =>
    match splitFirstColon r with
    | some (host, port) => isDigits port && check21stComps (splitOnChar '.' host)
    | none => check21stComps (splitOnChar '.' r)

/-- Embedding of `CorsHandler.isAllowedOrigin` (cors-handler.ts).
`none` models an absent Origin header; JS `!origin` is also true for the
empty string. -/
def CorsHandler.isAllowedOrigin (origin : Option String) : Bool :=
  match origin with
  | none => true
  | some s =>
    if s.data.isEmpty then true
    else
      let trimmed := jsTrim s.data
      if trimmed.isEmpty then true
      else
        matchHostPort "localhost".data trimmed ||
        matchHostPort "127.0.0.1".data trimmed ||
        matchHostPort "[::1]".data trimmed ||
        match21st trimmed

/-- Embedding of `CorsHandler.getCorsHeaders` (cors-handler.ts) as the list
of header/value pairs set on the response, in source order. -/
def CorsHandler.getCorsHeaders (origin : Option String) : List (String × String) :=
  let base := [("Access-Control-Allow-Methods", "POST, OPTIONS"),
               ("Access-Control-Allow-Headers", "Content-Type"),
               ("Access-Control-Max-Age", "86400")]
  if CorsHandler.isAllowedOrigin origin then
    base ++ [("Access-Control-Allow-Origin",
      match origin with
      | some s => if s = "" then "*" else s
      | none => "*")]
  else base

/-- Specification-side reading of the optional-port fragment: the remainder
after the host is empty or a colon followed by a nonempty digit string. -/
def portSpec (rest : List Char) : Prop :=
  rest = [] ∨ ∃ ds, ds ≠ [] ∧ (∀ c ∈ ds, c.isDigit = true) ∧ rest = ':' :: ds

/-- Concatenation of labels, each followed by a dot: the host shape
`(subdomain.)*` of the spec. -/
def joinLabels (labs : List (List Char)) : List Char :=
  (labs.map (fun lab => lab ++ ['.'])).flatten

/-- Specification-side reading of a localhost origin: a scheme, one of the
three loopback hosts, and an optional port. -/
def specLocalhost (t : List Char) : Prop :=
  ∃ scheme host rest, scheme ∈ schemePrefixes ∧
    host ∈ ["localhost".data, "127.0.0.1".data, "[::1]".data] ∧
    portSpec rest ∧ t = scheme ++ host ++ rest

/-- Specification-side reading of a `21st.dev` origin: a scheme, zero or
more subdomain labels, the apex `21st.dev`, and an optional port. -/
def spec21st (t : List Char) : Prop :=
  ∃ scheme labs rest, scheme ∈ schemePrefixes ∧
    (∀ lab ∈ labs, validLabel lab = true) ∧ portSpec rest ∧
    t = scheme ++ joinLabels labs ++ "21st.dev".data ++ rest

/-- The claim's characterization exactly as stated: origin absent or empty,
or the raw origin string matches a localhost or `21st.dev` pattern. -/
def specAllowedStrict (origin : Option String) : Prop :=
  match origin with
  | none => True
  | some s => s = "" ∨ specLocalhost s.data ∨ spec21st s.data

/-- The amended characterization: the origin is absent, or after trimming
JS whitespace it is empty or matches a localhost or `21st.dev` pattern. -/
def specAllowedAmended (origin : Option String) : Prop :=
  match origin with
  | none => True
  | some s =>
    jsTrim s.data = [] ∨ specLocalhost (jsTrim s.data) ∨ spec21st (jsTrim s.data)

/-- Specification-side shape of the host accepted by the `21st.dev` regex. -/
def hostOK (h : List Char) : Prop :=
  ∃ labs, (∀ lab ∈ labs, validLabel lab = true) ∧
    h = joinLabels labs ++ "21st.dev".data

/-- Model of JS `Map.prototype.get` (`mapGet m k`): JS `Map.prototype.get` on an insertion-ordered map modelled
as an association list. -/
def mapGet {β : Type} (m : List (String × β)) (k : String) : Option β :=
  match m with
  | [] => none
  | (k', v) :: rest => if k' = k then some v else mapGet rest k

/-- Model of JS `Map.prototype.set`: update in place if the key
exists (keeping its position), else append at the end. -/
def mapSet {β : Type} (m : List (String × β)) (k : String) (v : β) :
    List (String × β) :=
  match m with
  | [] => [(k, v)]
  | (k', w) :: rest => if k' = k then (k', v) :: rest else (k', w) :: mapSet rest k v

/-- Model of JS `Map.prototype.delete`: remove the entry with the
given key (first occurrence; keys are unique in a JS Map). -/
def mapDelete {β : Type} (m : List (String × β)) (k : String) : List (String × β) :=
  match m with
  | [] => []
  | (k', v) :: rest => if k' = k then rest else (k', v) :: mapDelete rest k

/-- Model of `Math.ceil(x / 1000)` for an integer `x` (JS float division then ceil). -/
def ceilDiv1000 (x : Int) : Int := Int.ediv (x + 999) 1000

/-- Result record of `RateLimiter.check` (rate-limiter.ts); `retryAfter` is
only present on rejection. -/
structure RateLimitResult where
  allowed : Bool
  remaining : Int
  resetTime : Int
  retryAfter : Option Int
deriving DecidableEq, Repr

/-- State of a `RateLimiter` (rate-limiter.ts): configuration plus the
per-IP map of in-window request timestamps (`Map<string, RateLimitEntry>`).
The background cleanup interval is an external timer and not part of the
per-call state. -/
structure RateLimiter where
  maxRequests : Nat
  windowMs : Int
  entries : List (String × List Int)
deriving DecidableEq, Repr

/-- State of `new RateLimiter()` with the source defaults (10 requests / 60000 ms). -/
def RateLimiter.defaultNew : RateLimiter := ⟨10, 60000, []⟩

/-- Core of `RateLimiter.check` on a single entry: prune, count, and either
reject (no append) or admit (append `now`). Returns the result and the new
timestamp list stored for the IP. Mirrors rate-limiter.ts lines 53–97,
including the JS truthiness test `oldestTimestamp ? ... : ...` under which
a stored timestamp equal to `0` falls back to `now + windowMs`. -/
def checkEntry (maxRequests : Nat) (windowMs : Int) (entry : List Int)
    (now : Int) : RateLimitResult × List Int :=
  let windowStart := now - windowMs
  let pruned := entry.filter (fun ts => windowStart < ts)
  let currentCount := pruned.length
  let remaining : Int := max 0 ((maxRequests : Int) - currentCount)
  let resetTime :=
    match pruned with
    | [] => now + windowMs
    | t :: _ => if t ≠ 0 then t + windowMs else now + windowMs
  if currentCount ≥ maxRequests then
    (⟨false, 0, resetTime, some (max 1 (ceilDiv1000 (resetTime - now)))⟩, pruned)
  else
    (⟨true, remaining - 1, resetTime, none⟩, pruned ++ [now])

/-- Embedding of `RateLimiter.check` (rate-limiter.ts): get-or-create the
entry for the IP, run the sliding-window admission logic, store the
updated timestamp list back into the map. -/
def RateLimiter.check (rl : RateLimiter) (ip : String) (now : Int) :
    RateLimitResult × RateLimiter :=
  let res := checkEntry rl.maxRequests rl.windowMs
    ((mapGet rl.entries ip).getD []) now
  (res.1, ⟨rl.maxRequests, rl.windowMs, mapSet rl.entries ip res.2⟩)

/-- A sequence of `check` calls applied in order to a rate limiter. -/
def RateLimiter.runTrace (rl : RateLimiter) : List (String × Int) → RateLimiter
  | [] => rl
  | (ip, now) :: rest => RateLimiter.runTrace (rl.check ip now).2 rest

/-- The pruned in-window timestamp list `check` computes for an IP. -/
def RateLimiter.pruned (rl : RateLimiter) (ip : String) (now : Int) : List Int :=
  ((mapGet rl.entries ip).getD []).filter (fun ts => now - rl.windowMs < ts)

/-- Invariant of C10: every stored per-IP timestamp list is bounded by
`maxRequests`. -/
def rlInvariant (rl : RateLimiter) : Prop :=
  ∀ ip, ((mapGet rl.entries ip).getD []).length ≤ rl.maxRequests

/-- Record `CacheEntry<T>` (api-cache.ts): cached data with insertion timestamp
and per-entry TTL in seconds. -/
structure CacheEntry (α : Type) where
  data : α
  timestamp : Int
  ttl : Int
deriving DecidableEq, Repr

/-- State of an `ApiCache<T>` (api-cache.ts): the insertion-ordered map
(insertion order doubles as LRU recency order), capacity, default TTL and
hit/miss counters. -/
structure ApiCache (α : Type) where
  cache : List (String × CacheEntry α)
  maxEntries : Nat
  defaultTtl : Int
  hits : Nat
  misses : Nat
deriving DecidableEq, Repr

/-- Embedding of `ApiCache.get` (api-cache.ts lines 72–97): miss on absent
key; expired entries are evicted on access and count as misses; a hit
moves the entry to the most-recently-used position (delete + re-insert). -/
def ApiCache.get {α : Type} (c : ApiCache α) (key : String) (now : Int) :
    Option α × ApiCache α :=
  match mapGet c.cache key with
  | none => (none, { c with misses := c.misses + 1 })
  | some entry =>
    if now > entry.timestamp + entry.ttl * 1000 then
      (none, { c with cache := mapDelete c.cache key, misses := c.misses + 1 })
    else
      (some entry.data,
       { c with cache := mapDelete c.cache key ++ [(key, entry)],
                hits := c.hits + 1 })

/-- The LRU-eviction step of `ApiCache.set` (api-cache.ts lines 103–124):
if at capacity and the key is new, evict the first (least-recently-used)
entry — the JS `firstKey !== undefined` guard makes this a no-op on an
empty map. -/
def evictIfFull {α : Type} (maxEntries : Nat)
    (cache : List (String × CacheEntry α)) (key : String) :
    List (String × CacheEntry α) :=
  if maxEntries ≤ cache.length ∧ (mapGet cache key).isNone then
    match cache with
    | [] => cache
    | (k0, _) :: _ => mapDelete cache k0
  else cache

/-- The `if (this.cache.has(key)) this.cache.delete(key)` step of `set`. -/
def deleteIfPresent {α : Type} (cache : List (String × CacheEntry α))
    (key : String) : List (String × CacheEntry α) :=
  if (mapGet cache key).isSome then mapDelete cache key else cache

/-- Embedding of `ApiCache.set`: evict if at capacity with a new key,
delete an existing key, then append at the most-recently-used position
with `ttl ?? defaultTtl` and `timestamp := now`. -/
def ApiCache.set {α : Type} (c : ApiCache α) (key : String) (value : α)
    (ttl : Option Int) (now : Int) : ApiCache α :=
  { c with cache := deleteIfPresent (evictIfFull c.maxEntries c.cache key) key ++
      [(key, ⟨value, now, ttl.getD c.defaultTtl⟩)] }

/-- One `set` or `get` call against an `ApiCache`. -/
inductive CacheOp (α : Type) where
  | set (key : String) (value : α) (ttl : Option Int) (now : Int)
  | get (key : String) (now : Int)

/-- Apply one cache operation. -/
def ApiCache.applyOp {α : Type} (c : ApiCache α) : CacheOp α → ApiCache α
  | .set k v t n => c.set k v t n
  | .get k n => (c.get k n).2

/-- Apply a sequence of cache operations in order. -/
def ApiCache.applyOps {α : Type} (c : ApiCache α) (ops : List (CacheOp α)) :
    ApiCache α :=
  ops.foldl ApiCache.applyOp c

/-- Record `SessionToken` (session-token.ts). -/
structure SessionToken where
  token : String
  createdAt : Int
  expiresAt : Int
deriving DecidableEq, Repr

/-- State of a `SessionTokenManager` (session-token.ts): the map of active
tokens plus the configured expiration window. The `randomBytes` source of
fresh tokens and the background cleanup interval are external. -/
structure SessionTokenManager where
  activeTokens : List (String × SessionToken)
  expirationMs : Int
deriving DecidableEq, Repr

/-- Embedding of `SessionTokenManager.generate` with the freshly drawn
random token passed in as `tok` (the source draws 32 random bytes and hex
encodes them; randomness is external to the model). -/
def SessionTokenManager.generate (m : SessionTokenManager) (tok : String)
    (now : Int) : SessionTokenManager :=
  { m with activeTokens :=
      mapSet m.activeTokens tok ⟨tok, now, now + m.expirationMs⟩ }

/-- Embedding of `SessionTokenManager.validate` (session-token.ts lines
66–83): false on empty input, false on an unknown token, and on an
expired token the entry is deleted before returning false. -/
def SessionTokenManager.validate (m : SessionTokenManager) (token : String)
    (now : Int) : Bool × SessionTokenManager :=
  if token = "" then (false, m)
  else
    match mapGet m.activeTokens token with
    | none => (false, m)
    | some st =>
      if now > st.expiresAt then
        (false, { m with activeTokens := mapDelete m.activeTokens token })
      else (true, m)

/-- Embedding of `SessionTokenManager.invalidate`: unconditional delete. -/
def SessionTokenManager.invalidate (m : SessionTokenManager)
    (token : String) : SessionTokenManager :=
  { m with activeTokens := mapDelete m.activeTokens token }

/-- Embedding of `SessionTokenManager.getTokenInfo`. -/
def SessionTokenManager.getTokenInfo (m : SessionTokenManager)
    (token : String) : Option SessionToken :=
  mapGet m.activeTokens token

/-- Split at the first occurrence of a separator char. -/
def splitFirstChar (sep : Char) : List Char → Option (List Char × List Char)
  | [] => none
  | c :: cs =>
    if c = sep then some ([], cs)
    else
      match splitFirstChar sep cs with
      | some (a, b) => some (c :: a, b)
      | none => none

/-- Hex digit value. -/
def hexVal (c : Char) : Option Nat :=
  if c.isDigit then some (c.toNat - '0'.toNat)
  else if 'a' ≤ c ∧ c ≤ 'f' then some (c.toNat - 'a'.toNat + 10)
  else if 'A' ≤ c ∧ c ≤ 'F' then some (c.toNat - 'A'.toNat + 10)
  else none

/-- Simplified model of `application/x-www-form-urlencoded` value decoding
as done by the `URLSearchParams` builtin: `+` becomes a space and `%XX`
with two hex digits becomes the byte value (multi-byte UTF-8 sequences are
not reassembled; the token/flag values the server reads are plain ASCII). -/
def formDecode : List Char → List Char
  | [] => []
  | '+' :: rest => ' ' :: formDecode rest
  | '%' :: h1 :: h2 :: rest =>
    match hexVal h1, hexVal h2 with
    | some a, some b => Char.ofNat (16 * a + b) :: formDecode rest
    | _, _ => '%' :: formDecode (h1 :: h2 :: rest)
  | c :: rest => c :: formDecode rest

/-- Model of `new URL(url, "http://localhost").searchParams.get(name)` for
a path-plus-query request target: take the part after the first `?` (and
before any `#`), split on `&`, and return the decoded value of the first
parameter whose decoded name matches; `none` when there is no query or no
such parameter. -/
def searchParamsGet (url : String) (name : String) : Option String :=
  match splitFirstChar '?' url.data with
  | none => none
  | some (_, afterQm) =>
    let query := match splitFirstChar '#' afterQm with
      | some (q, _) => q
      | none => afterQm
    let params := (splitOnChar '&' query).filter (fun p => !p.isEmpty)
    params.findSome? (fun p =>
      let kv := match splitFirstChar '=' p with
        | some (k, v) => (k, v)
        | none => (p, [])
      if formDecode kv.1 = name.data then some (String.mk (formDecode kv.2))
      else none)

/-- Embedding of `CallbackServer.extractTokenFromUrl` (callback-server.ts
lines 246–254): `null` for a missing `req.url`, else the `token` query
parameter. -/
def CallbackServer.extractTokenFromUrl (url : Option String) : Option String :=
  match url with
  | none => none
  | some u => searchParamsGet u "token"

/-- Enum `ServerState` (callback-server.ts). -/
inductive ServerState where
  | idle
  | busy
  | shutdown
deriving DecidableEq, Repr

/-- Payload of a `BodyTooLargeError` (callback-server.ts lines 45–55). -/
structure BodyTooLargeError where
  limit : Nat
  received : Nat
deriving DecidableEq, Repr

/-- Body-read loop of `parseBody` (callback-server.ts lines 212–240): add
each chunk's byte count before the limit test, abort with
`BodyTooLargeError(limit, received)` as soon as the running count passes
the limit (the current chunk is then never appended to the buffer), else
append the chunk; resolve with the accumulated body at end of stream.
Chunks are byte strings; a char models one byte. -/
def parseBodyGo (maxBodySize : Nat) (currentSize : Nat) (acc : List Char) :
    List (List Char) → Except BodyTooLargeError (List Char)
  | [] => .ok acc
  | chunk :: rest =>
    if currentSize + chunk.length > maxBodySize then
      .error ⟨maxBodySize, currentSize + chunk.length⟩
    else parseBodyGo maxBodySize (currentSize + chunk.length) (acc ++ chunk) rest

/-- Embedding of `CallbackServer.parseBody`. -/
def CallbackServer.parseBody (maxBodySize : Nat)
    (chunks : List (List Char)) : Except BodyTooLargeError (List Char) :=
  parseBodyGo maxBodySize 0 [] chunks

/-- An inbound HTTP request as seen by `handleRequest`. -/
structure HandlerRequest where
  method : String
  url : Option String
  origin : Option String
  xForwardedFor : Option String
  remoteAddress : Option String
  chunks : List (List Char)

/-- The response written by `handleRequest`: status, body, and the
`Retry-After` header value when present. -/
structure HandlerResponse where
  status : Nat
  body : String
  retryAfter : Option Int
deriving DecidableEq, Repr

/-- State of a `CallbackServer` instance (callback-server.ts): the
singleton flag, lifecycle state, whether a continuation
(`this.promiseResolve`) is pending, the live session token, the owned
rate limiter and session token manager, and the two timers (modelled as
armed flags). The listening socket and the process-wide singleton
registry are external. -/
structure CallbackServer where
  state : ServerState
  promiseResolveSet : Bool
  isSingletonInstance : Bool
  sessionToken : Option String
  rateLimiter : RateLimiter
  sessionTokenManager : SessionTokenManager
  timeoutArmed : Bool
  inactivityArmed : Bool

/-- Embedding of `CallbackServer.getClientIp` (callback-server.ts lines
260–267): first entry of `X-Forwarded-For` (the empty header string is
falsy in JS), else the socket address, else `"unknown"`. -/
def CallbackServer.getClientIp (req : HandlerRequest) : String :=
  match req.xForwardedFor with
  | some fwd =>
    if fwd.data.isEmpty then req.remoteAddress.getD "unknown"
    else String.mk (jsTrim ((splitOnChar ',' fwd.data).headD []))
  | none => req.remoteAddress.getD "unknown"

/-- Embedding of `CallbackServer.shutdown` (callback-server.ts lines
382–409) on the modelled state: state to SHUTDOWN, clear the callback
timeout, invalidate a live session token, stop the background sweeps
(external) and the inactivity timer. The pending `promiseResolve`
reference is not cleared by the source. -/
def CallbackServer.shutdown (s : CallbackServer) : CallbackServer :=
  let s1 : CallbackServer := { s with state := ServerState.shutdown, timeoutArmed := false }
  let s2 : CallbackServer :=
    match s1.sessionToken with
    | some t => { s1 with
        sessionTokenManager := s1.sessionTokenManager.invalidate t,
        sessionToken := none }
    | none => s1
  { s2 with inactivityArmed := false }

/-- Outcome of one `handleRequest` call: the response written, the body
handed to the pending continuation (when it was resolved), and the new
server state. -/
structure HandlerOutcome where
  response : HandlerResponse
  resolved : Option String
  server : CallbackServer

/-- Embedding of `CallbackServer.handleRequest` (callback-server.ts lines
269–380): CORS check (403), OPTIONS preflight (200), rate limiting (429
with Retry-After), then for `POST` on a `/data`-prefixed URL the token
checks (401), the body read (413 on overflow), and the
resolve/not-ready split (200 "success" / 500 "Server not ready");
everything else is 404. `now` stands for the `Date.now()` readings of the
call; `maxBodySize` for `getMaxBodySize()`. -/
def CallbackServer.handleRequest (s : CallbackServer) (maxBodySize : Nat)
    (req : HandlerRequest) (now : Int) : HandlerOutcome :=
  let origin := req.origin
  let clientIp := CallbackServer.getClientIp req
  if ¬ CorsHandler.isAllowedOrigin origin then
    ⟨⟨403, "Forbidden: Origin not allowed", none⟩, none, s⟩
  else if req.method = "OPTIONS" then
    ⟨⟨200, "", none⟩, none, s⟩
  else
    let rateRes := s.rateLimiter.check clientIp now
    let s := { s with rateLimiter := rateRes.2 }
    if rateRes.1.allowed = false then
      ⟨⟨429, "Too Many Requests", rateRes.1.retryAfter⟩, none, s⟩
    else if req.method == "POST" &&
        (match req.url with
         | some u => startsWithL "/data".data u.data
         | none => false) then
      match CallbackServer.extractTokenFromUrl req.url with
      | none =>
        ⟨⟨401, "\x7b\"error\":\"Missing session token\"\x7d", none⟩, none, s⟩
      | some token =>
        let valRes := s.sessionTokenManager.validate token now
        let s := { s with sessionTokenManager := valRes.2 }
        if valRes.1 = false then
          match s.sessionTokenManager.getTokenInfo token with
          | some info =>
            if now > info.expiresAt then
              ⟨⟨401, "\x7b\"error\":\"Session token expired\"\x7d", none⟩, none, s⟩
            else
              ⟨⟨401, "\x7b\"error\":\"Invalid session token\"\x7d", none⟩, none, s⟩
          | none =>
            ⟨⟨401, "\x7b\"error\":\"Invalid session token\"\x7d", none⟩, none, s⟩
        else
          match CallbackServer.parseBody maxBodySize req.chunks with
          | .error e =>
            ⟨⟨413, "\x7b\"error\":\"Payload too large\",\"limit\":" ++
              Nat.repr e.limit ++ "\x7d", none⟩, none, s⟩
          | .ok body =>
            if s.promiseResolveSet then
              let s1 : CallbackServer := { s with timeoutArmed := false }
              let s2 : CallbackServer :=
                match s1.sessionToken with
                | some t => { s1 with
                    sessionTokenManager := s1.sessionTokenManager.invalidate t,
                    sessionToken := none }
                | none => s1
              if s2.isSingletonInstance then
                ⟨⟨200, "success", none⟩, some (String.mk body),
                 { s2 with promiseResolveSet := false,
                           state := ServerState.idle,
                           inactivityArmed := true }⟩
              else
                ⟨⟨200, "success", none⟩, some (String.mk body), s2.shutdown⟩
            else
              ⟨⟨500, "Server not ready", none⟩, none, s⟩
    else
      ⟨⟨404, "Not found", none⟩, none, s⟩

/-- Lowercase both sides: model of a case-insensitive (`/i`) regex test
for patterns made of ASCII literals. -/
def containsSeqCI (needle hay : List Char) : Bool :=
  containsSeq (needle.map Char.toLower) (hay.map Char.toLower)

/-- Model of the JS builtin `decodeURIComponent`: percent-decode, failing
(URIError, modelled as `none`) on a `%` not followed by two hex digits.
Simplification: decoded bytes become code points directly; multi-byte
UTF-8 sequences are not reassembled and invalid UTF-8 is not rejected.
The traversal patterns the validator tests are ASCII, where this agrees
with the builtin. -/
def percentDecode : List Char → Option (List Char)
  | [] => some []
  | '%' :: h1 :: h2 :: rest =>
    match hexVal h1, hexVal h2 with
    | some a, some b => (percentDecode rest).map (fun l => Char.ofNat (16 * a + b) :: l)
    | _, _ => none
  | '%' :: _ => none
  | c :: rest => (percentDecode rest).map (fun l => c :: l)

/-- Embedding of `PathValidator.containsTraversal` (path-validator.ts
lines 72–104): decode (falling back to the raw input on failure),
normalize backslashes to slashes, and test each `..`-pattern against both
the raw input and the normalized decoded path. -/
def PathValidator.containsTraversal (inputPath : String) : Bool :=
  let decodedPath := (percentDecode inputPath.data).getD inputPath.data
  let normalizedPath := decodedPath.map (fun c => if c = '\\' then '/' else c)
  let pats : List (List Char → Bool) :=
    [containsSeq "..".data,
     containsSeq "..%".data,
     fun l => containsSeqCI "%2e%2e".data l,
     fun l => containsSeqCI "%252e%252e".data l,
     containsSeq "../".data,
     containsSeq "/..".data,
     containsSeq "..\\".data,
     containsSeq "\\..".data]
  pats.any (fun pat => pat inputPath.data || pat normalizedPath)

/-- Result of the `fs.realpath` builtin as seen by `resolvePath`. -/
inductive RealpathResult where
  | found (p : String)
  | enoent
  | otherError (msg : String)

/-- Result record of `PathValidator.validate`. -/
structure PathValidationResult where
  valid : Bool
  normalizedPath : Option String
  error : Option String
deriving DecidableEq, Repr

/-- Embedding of `PathValidator.resolvePath` (path-validator.ts lines
109–137), parameterized over the `path.resolve` builtins (`resolve1` for
one argument, `resolve2` for two) and `fs.realpath`; the POSIX separator
`/` is used. When following symlinks, a resolved real path outside the
base is an error, a missing target (ENOENT) falls back to the resolved
path, and other filesystem errors propagate. -/
def PathValidator.resolvePath (resolve1 : String → String)
    (resolve2 : String → String → String) (realpath : String → RealpathResult)
    (followSymlinks : Bool) (inputPath basePath : String) :
    Except String String :=
  let normalizedBase := resolve1 basePath
  let resolvedPath := resolve2 normalizedBase inputPath
  if followSymlinks then
    match realpath resolvedPath with
    | .found realPath =>
      if !startsWithL (normalizedBase ++ "/").data realPath.data &&
          !(realPath == normalizedBase) then
        .error "Symlink points outside the allowed base directory"
      else .ok realPath
    | .enoent => .ok resolvedPath
    | .otherError msg => .error msg
  else .ok resolvedPath

/-- Embedding of `PathValidator.validate` (path-validator.ts lines
34–66): traversal check first, then resolution, then the containment
check against `resolve(basePath)`. -/
def PathValidator.validate (resolve1 : String → String)
    (resolve2 : String → String → String) (realpath : String → RealpathResult)
    (followSymlinks : Bool) (inputPath basePath : String) :
    PathValidationResult :=
  if PathValidator.containsTraversal inputPath then
    ⟨false, none, some "Path contains directory traversal sequences"⟩
  else
    match PathValidator.resolvePath resolve1 resolve2 realpath followSymlinks
        inputPath basePath with
    | .error msg => ⟨false, none, some msg⟩
    | .ok resolvedPath =>
      let normalizedBase := resolve1 basePath
      if !startsWithL (normalizedBase ++ "/").data resolvedPath.data &&
          !(resolvedPath == normalizedBase) then
        ⟨false, none, some "Path resolves outside the allowed base directory"⟩
      else ⟨true, some resolvedPath, none⟩

/-- The parsed-URL fields `sanitizeUrl` reads from the `new URL` builtin. -/
structure URLRec where
  protocol : String
  host : String
  href : String
deriving DecidableEq, Repr

/-- Model of JS `Array.prototype.join` with a separator. -/
def arrJoin (sep : String) : List String → String
  | [] => ""
  | [x] => x
  | x :: y :: ys => x ++ sep ++ arrJoin sep (y :: ys)

/-- Model of `String.split(c).join(rep)` for a single-char separator: replace every
occurrence of `c` by `rep`. -/
def replaceCharAll (c : Char) (rep : List Char) (l : List Char) : List Char :=
  (l.map (fun x => if x = c then rep else [x])).flatten

/-- The encoding table of `encodeShellMetacharsInUrl` (shell-sanitizer.ts
lines 131–155), in source order; `?` and `&` are deliberately excluded. -/
def shellCharsToEncode : List (Char × List Char) :=
  [('\'', "%27".data), ('"', "%22".data), (Char.ofNat 96, "%60".data),
   ('$', "%24".data), ('\\', "%5C".data), ('!', "%21".data),
   ('#', "%23".data), ('^', "%5E".data), ('|', "%7C".data),
   (';', "%3B".data), ('(', "%28".data), (')', "%29".data),
   ('<', "%3C".data), ('>', "%3E".data), ('*', "%2A".data),
   ('[', "%5B".data), (']', "%5D".data), ('~', "%7E".data)]

/-- Embedding of `ShellSanitizer.encodeShellMetacharsInUrl`: re-encode the
path-and-query portion of the href (everything after `protocol//host`),
leaving scheme and host untouched. -/
def encodeShellMetacharsInUrl (u : URLRec) : String :=
  let protocolAndHost := u.protocol ++ "//" ++ u.host
  let pathAndQuery := u.href.data.drop protocolAndHost.length
  let encoded := shellCharsToEncode.foldl
    (fun acc p => replaceCharAll p.1 p.2 acc) pathAndQuery
  protocolAndHost ++ String.mk encoded

/-- Embedding of `ShellSanitizer.sanitizeUrl` (shell-sanitizer.ts lines
71–103), parameterized over the `new URL` builtin (`parse`, `none`
modelling a constructor throw): empty and whitespace-only input throw,
unparseable input throws `Invalid URL format: ...`, a protocol outside
the allow-list (default `http:`, `https:`) throws `Invalid URL protocol:
...`, and otherwise the re-encoded URL string is returned. -/
def ShellSanitizer.sanitizeUrl (parse : String → Option URLRec)
    (allowedProtocols : Option (List String)) (url : String) :
    Except String String :=
  if url = "" then .error "URL must be a non-empty string"
  else
    let trimmedUrl := String.mk (jsTrim url.data)
    if trimmedUrl = "" then .error "URL cannot be empty"
    else
      match parse trimmedUrl with
      | none => .error ("Invalid URL format: " ++ trimmedUrl)
      | some parsedUrl =>
        let allowed := allowedProtocols.getD ["http:", "https:"]
        if parsedUrl.protocol ∈ allowed then
          .ok (encodeShellMetacharsInUrl parsedUrl)
        else
          .error ("Invalid URL protocol: " ++ parsedUrl.protocol ++
            ". Allowed protocols: " ++ arrJoin ", " allowed)

theorem dropPfx_eq_some {p s r : List Char} :
    dropPfx p s = some r ↔ s = p ++ r := by
  induction p generalizing s with
  | nil => simp [dropPfx]
  | cons a ps ih =>
    cases s with
    | nil => simp [dropPfx]
    | cons c cs =>
      by_cases h : a = c
      · subst h
        simp [dropPfx, ih]
      · simp [dropPfx, h]
        intro hca
        exact fun _ => h hca.symm

theorem dropPfx_self_append (p r : List Char) : dropPfx p (p ++ r) = some r := by
  induction p with
  | nil => simp [dropPfx]
  | cons a ps ih => simp [dropPfx, ih]

theorem stripScheme_http (r : List Char) :
    stripScheme ("http://".data ++ r) = some r := by
  unfold stripScheme
  rw [dropPfx_self_append]

theorem stripScheme_https (r : List Char) :
    stripScheme ("https://".data ++ r) = some r := by
  unfold stripScheme
  have h1 : dropPfx "http://".data ("https://".data ++ r) = none := rfl
  rw [h1, dropPfx_self_append]

theorem stripScheme_eq_some {l r : List Char} :
    stripScheme l = some r ↔ ∃ scheme, scheme ∈ schemePrefixes ∧ l = scheme ++ r := by
  constructor
  · intro h
    unfold stripScheme at h
    cases hh : dropPfx "http://".data l with
    | some x =>
      rw [hh] at h
      refine ⟨"http://".data, by simp [schemePrefixes], ?_⟩
      cases h
      exact dropPfx_eq_some.mp hh
    | none =>
      rw [hh] at h
      exact ⟨"https://".data, by simp [schemePrefixes], dropPfx_eq_some.mp h⟩
  · rintro ⟨scheme, hmem, rfl⟩
    simp [schemePrefixes] at hmem
    rcases hmem with h | h <;> subst h
    · exact stripScheme_http r
    · exact stripScheme_https r

theorem optPort_iff {r : List Char} : optPort r = true ↔ portSpec r := by
  cases r with
  | nil => simp [optPort, portSpec]
  | cons c cs =>
    constructor
    · intro h
      simp [optPort, Bool.and_eq_true, isDigits] at h
      obtain ⟨hc, hne, hall⟩ := h
      subst hc
      refine Or.inr ⟨cs, ?_, ?_, rfl⟩
      · intro hnil
        subst hnil
        simp at hne
      · intro x hx
        exact hall x hx
    · rintro (h | ⟨ds, hne, hall, heq⟩)
      · cases h
      · cases heq
        simp [optPort, isDigits, hne]
        intro x hx
        exact hall x hx

theorem matchHostPort_iff {host l : List Char} :
    matchHostPort host l = true ↔
      ∃ scheme rest, scheme ∈ schemePrefixes ∧ portSpec rest ∧
        l = scheme ++ host ++ rest := by
  constructor
  · intro h
    unfold matchHostPort at h
    cases hs : stripScheme l with
    | none => rw [hs] at h; cases h
    | some r =>
      rw [hs] at h
      dsimp only at h
      cases hd : dropPfx host r with
      | none => rw [hd] at h; cases h
      | some rest =>
        rw [hd] at h
        dsimp only at h
        obtain ⟨scheme, hmem, rfl⟩ := stripScheme_eq_some.mp hs
        obtain rfl := dropPfx_eq_some.mp hd
        exact ⟨scheme, rest, hmem, optPort_iff.mp h, by rw [List.append_assoc]⟩
  · rintro ⟨scheme, rest, hmem, hport, rfl⟩
    have hs : stripScheme (scheme ++ host ++ rest) = some (host ++ rest) := by
      rw [List.append_assoc]
      exact stripScheme_eq_some.mpr ⟨scheme, hmem, rfl⟩
    unfold matchHostPort
    rw [hs]
    dsimp only
    rw [dropPfx_self_append]
    exact optPort_iff.mpr hport

theorem splitOnChar_ne_nil (sep : Char) (l : List Char) : splitOnChar sep l ≠ [] := by
  cases l with
  | nil => simp [splitOnChar]
  | cons c cs =>
    by_cases h : c = sep
    · simp [splitOnChar, h]
    · unfold splitOnChar
      rw [if_neg h]
      cases hh : splitOnChar sep cs <;> simp

theorem joinDots_cons_cons (x y : List Char) (ys : List (List Char)) :
    joinDots (x :: y :: ys) = x ++ '.' :: joinDots (y :: ys) := rfl

theorem joinDots_splitOnChar (l : List Char) :
    joinDots (splitOnChar '.' l) = l := by
  induction l with
  | nil => rfl
  | cons c cs ih =>
    by_cases h : c = '.'
    · subst h
      unfold splitOnChar
      rw [if_pos rfl]
      rcases hh : splitOnChar '.' cs with _ | ⟨x, xs⟩
      · exact absurd hh (splitOnChar_ne_nil _ _)
      · rw [hh] at ih
        rw [joinDots_cons_cons]
        simp [ih]
    · unfold splitOnChar
      rw [if_neg h]
      rcases hh : splitOnChar '.' cs with _ | ⟨x, xs⟩
      · exact absurd hh (splitOnChar_ne_nil _ _)
      · rw [hh] at ih
        cases xs with
        | nil => simpa [joinDots] using congrArg (c :: ·) ih
        | cons y ys =>
          rw [joinDots_cons_cons] at ih ⊢
          rw [← ih]
          simp

theorem splitOnChar_cons (sep c : Char) (cs : List Char) :
    splitOnChar sep (c :: cs) =
      if c = sep then [] :: splitOnChar sep cs
      else
        match splitOnChar sep cs with
        | [] => [[c]]
        | h :: t => (c :: h) :: t := rfl

theorem splitFirstColon_cons (c : Char) (cs : List Char) :
    splitFirstColon (c :: cs) =
      if c = ':' then some ([], cs)
      else
        match splitFirstColon cs with
        | some (a, b) => some (c :: a, b)
        | none => none := rfl

theorem splitOnChar_label (lab rest : List Char) (h : '.' ∉ lab) :
    splitOnChar '.' (lab ++ '.' :: rest) = lab :: splitOnChar '.' rest := by
  induction lab with
  | nil => simp [splitOnChar]
  | cons a as ih =>
    have ha : a ≠ '.' := fun hh => h (hh ▸ List.mem_cons_self a as)
    have ih' := ih (fun hm => h (List.mem_cons_of_mem a hm))
    rw [List.cons_append, splitOnChar_cons, if_neg ha, ih']

theorem splitFirstColon_none_iff {l : List Char} :
    splitFirstColon l = none ↔ ':' ∉ l := by
  induction l with
  | nil => simp [splitFirstColon]
  | cons c cs ih =>
    by_cases h : c = ':'
    · subst h
      simp [splitFirstColon]
    · rw [splitFirstColon_cons, if_neg h]
      cases hh : splitFirstColon cs with
      | some p =>
        obtain ⟨a, b⟩ := p
        have hmem : ':' ∈ cs := by
          by_contra hmm
          rw [ih.mpr hmm] at hh
          exact absurd hh (by simp)
        simp [List.mem_cons, hmem]
      | none =>
        have h1 : ':' ∉ cs := ih.mp hh
        simp [List.mem_cons, h1]
        exact fun hx => h hx.symm

theorem splitFirstColon_eq_some {l : List Char} {a b : List Char} :
    splitFirstColon l = some (a, b) → l = a ++ ':' :: b ∧ ':' ∉ a := by
  induction l generalizing a with
  | nil => simp [splitFirstColon]
  | cons c cs ih =>
    by_cases h : c = ':'
    · subst h
      rw [splitFirstColon_cons, if_pos rfl]
      intro hh
      obtain ⟨rfl, rfl⟩ : a = [] ∧ b = cs := by
        constructor <;> injections <;> simp_all
      simp
    · rw [splitFirstColon_cons, if_neg h]
      cases hh : splitFirstColon cs with
      | some p =>
        obtain ⟨a', b'⟩ := p
        dsimp only
        intro heq
        obtain ⟨rfl, rfl⟩ : a = c :: a' ∧ b = b' := by
          constructor <;> injections <;> simp_all
        obtain ⟨heq2, hnc⟩ := ih hh
        refine ⟨by rw [List.cons_append, ← heq2], ?_⟩
        simp [List.mem_cons, hnc]
        exact fun hx => h hx.symm
      | none => simp

theorem splitFirstColon_append {a : List Char} (b : List Char) (h : ':' ∉ a) :
    splitFirstColon (a ++ ':' :: b) = some (a, b) := by
  induction a with
  | nil => simp [splitFirstColon]
  | cons c cs ih =>
    have hc : c ≠ ':' := fun hh => h (hh ▸ List.mem_cons_self c cs)
    have ih' := ih (fun hm => h (List.mem_cons_of_mem c hm))
    rw [List.cons_append, splitFirstColon_cons, if_neg hc, ih']

theorem validTail_chars {l : List Char} (h : validTail l = true) :
    ∀ c ∈ l, c.isAlphanum = true ∨ c = '-' := by
  induction l with
  | nil => simp
  | cons a as ih =>
    cases as with
    | nil =>
      simp only [validTail] at h
      intro c hc
      simp at hc
      subst hc
      exact Or.inl h
    | cons b bs =>
      simp only [validTail, Bool.and_eq_true] at h
      obtain ⟨ha, hrest⟩ := h
      intro c hc
      rcases List.mem_cons.mp hc with rfl | hc2
      · rcases Bool.or_eq_true _ _ |>.mp ha with h1 | h1
        · exact Or.inl h1
        · exact Or.inr (by simpa using h1)
      · exact ih hrest c hc2

theorem validLabel_chars {l : List Char} (h : validLabel l = true) :
    ∀ c ∈ l, c.isAlphanum = true ∨ c = '-' := by
  cases l with
  | nil => simp [validLabel] at h
  | cons a as =>
    simp only [validLabel, Bool.and_eq_true] at h
    intro c hc
    rcases List.mem_cons.mp hc with rfl | hc2
    · exact Or.inl h.1
    · exact validTail_chars h.2 c hc2

theorem validLabel_no_dot {l : List Char} (h : validLabel l = true) : '.' ∉ l := by
  intro hm
  rcases validLabel_chars h '.' hm with h1 | h1
  · simp at h1
  · simp at h1

theorem validLabel_no_colon {l : List Char} (h : validLabel l = true) : ':' ∉ l := by
  intro hm
  rcases validLabel_chars h ':' hm with h1 | h1
  · simp at h1
  · simp at h1

theorem joinLabels_cons (x : List Char) (labs : List (List Char)) :
    joinLabels (x :: labs) = x ++ '.' :: joinLabels labs := by
  simp [joinLabels]

theorem joinDots_append_pair (labs : List (List Char)) (a b : List Char) :
    joinDots (labs ++ [a, b]) = joinLabels labs ++ (a ++ '.' :: b) := by
  induction labs with
  | nil => simp [joinDots, joinLabels]
  | cons x xs ih =>
    cases hl : xs ++ [a, b] with
    | nil => simp at hl
    | cons y ys =>
      rw [List.cons_append, hl, joinDots_cons_cons, ← hl, ih, joinLabels_cons]
      simp

theorem check21st_cons {lab : List Char} {comps : List (List Char)}
    (hl : validLabel lab = true) (hc : check21stComps comps = true) :
    check21stComps (lab :: comps) = true := by
  unfold check21stComps at hc ⊢
  cases hr : comps.reverse with
  | nil => rw [hr] at hc; cases hc
  | cons dev rest =>
    cases rest with
    | nil => rw [hr] at hc; cases hc
    | cons st labs =>
      rw [hr] at hc
      simp only [Bool.and_eq_true, beq_iff_eq] at hc
      obtain ⟨⟨hdev, hst⟩, hall⟩ := hc
      rw [List.reverse_cons, hr]
      simp [hdev, hst, List.all_eq_true] at hall ⊢
      exact ⟨hall, hl⟩

theorem hostOK_to_check {labs : List (List Char)}
    (hall : ∀ lab ∈ labs, validLabel lab = true) :
    check21stComps (splitOnChar '.' (joinLabels labs ++ "21st.dev".data)) = true := by
  induction labs with
  | nil =>
    have : joinLabels [] ++ "21st.dev".data = "21st.dev".data := by simp [joinLabels]
    rw [this]
    rfl
  | cons lab rest ih =>
    have hv : validLabel lab = true := hall lab (List.mem_cons_self _ _)
    have hd : '.' ∉ lab := validLabel_no_dot hv
    have heq : joinLabels (lab :: rest) ++ "21st.dev".data =
        lab ++ '.' :: (joinLabels rest ++ "21st.dev".data) := by
      rw [joinLabels_cons]
      simp
    rw [heq, splitOnChar_label _ _ hd]
    exact check21st_cons hv (ih (fun l hl => hall l (List.mem_cons_of_mem _ hl)))

theorem check_to_hostOK {h : List Char}
    (hc : check21stComps (splitOnChar '.' h) = true) : hostOK h := by
  unfold check21stComps at hc
  cases hr : (splitOnChar '.' h).reverse with
  | nil => rw [hr] at hc; cases hc
  | cons dev rest =>
    cases rest with
    | nil => rw [hr] at hc; cases hc
    | cons st labs =>
      rw [hr] at hc
      simp only [Bool.and_eq_true, beq_iff_eq, List.all_eq_true] at hc
      obtain ⟨⟨hdev, hst⟩, hall⟩ := hc
      refine ⟨labs.reverse, ?_, ?_⟩
      · intro lab hmem
        exact hall lab (by simpa using hmem)
      · have hsplit : splitOnChar '.' h = labs.reverse ++ [st, dev] := by
          have := congrArg List.reverse hr
          simpa using this
        calc h = joinDots (splitOnChar '.' h) := (joinDots_splitOnChar h).symm
          _ = joinDots (labs.reverse ++ [st, dev]) := by rw [hsplit]
          _ = joinLabels labs.reverse ++ (st ++ '.' :: dev) := joinDots_append_pair _ _ _
          _ = joinLabels labs.reverse ++ "21st.dev".data := by rw [hst, hdev]; rfl

theorem noColon_joinLabels {labs : List (List Char)}
    (hall : ∀ lab ∈ labs, validLabel lab = true) : ':' ∉ joinLabels labs := by
  induction labs with
  | nil => simp [joinLabels]
  | cons lab rest ih =>
    intro hm
    rw [joinLabels_cons] at hm
    have hm' : ':' ∈ lab ∨ ':' = '.' ∨ ':' ∈ joinLabels rest := by simpa using hm
    rcases hm' with h1 | h1 | h1
    · exact validLabel_no_colon (hall lab (List.mem_cons_self _ _)) h1
    · simp at h1
    · exact ih (fun l hl => hall l (List.mem_cons_of_mem _ hl)) h1

theorem noColon_host {labs : List (List Char)}
    (hall : ∀ lab ∈ labs, validLabel lab = true) :
    ':' ∉ joinLabels labs ++ "21st.dev".data := by
  intro hm
  rcases List.mem_append.mp hm with hm | hm
  · exact noColon_joinLabels hall hm
  · have hx : (':' : Char) ∉ "21st.dev".data := by decide
    exact hx hm

theorem isDigits_iff {l : List Char} :
    isDigits l = true ↔ l ≠ [] ∧ ∀ c ∈ l, c.isDigit = true := by
  cases l with
  | nil => simp [isDigits]
  | cons c cs => simp [isDigits, List.all_eq_true]

theorem match21st_iff {l : List Char} : match21st l = true ↔ spec21st l := by
  constructor
  · intro h
    unfold match21st at h
    cases hs : stripScheme l with
    | none => rw [hs] at h; cases h
    | some r =>
      rw [hs] at h
      dsimp only at h
      obtain ⟨scheme, hmem, rfl⟩ := stripScheme_eq_some.mp hs
      cases hc : splitFirstColon r with
      | some hp =>
        obtain ⟨host, port⟩ := hp
        rw [hc] at h
        dsimp only at h
        simp only [Bool.and_eq_true] at h
        obtain ⟨hdig, hchk⟩ := h
        obtain ⟨rfl, hnc⟩ := splitFirstColon_eq_some hc
        obtain ⟨labs, hall, rfl⟩ := check_to_hostOK hchk
        obtain ⟨hne, hdigall⟩ := isDigits_iff.mp hdig
        exact ⟨scheme, labs, ':' :: port, hmem, hall,
          Or.inr ⟨port, hne, hdigall, rfl⟩, by simp⟩
      | none =>
        rw [hc] at h
        dsimp only at h
        obtain ⟨labs, hall, rfl⟩ := check_to_hostOK h
        exact ⟨scheme, labs, [], hmem, hall, Or.inl rfl, by simp⟩
  · rintro ⟨scheme, labs, rest, hmem, hall, hport, rfl⟩
    have hshape : scheme ++ joinLabels labs ++ "21st.dev".data ++ rest =
        scheme ++ ((joinLabels labs ++ "21st.dev".data) ++ rest) := by simp
    have hs : stripScheme (scheme ++ joinLabels labs ++ "21st.dev".data ++ rest) =
        some ((joinLabels labs ++ "21st.dev".data) ++ rest) := by
      rw [hshape]
      exact stripScheme_eq_some.mpr ⟨scheme, hmem, rfl⟩
    unfold match21st
    rw [hs]
    dsimp only
    have hnc : ':' ∉ joinLabels labs ++ "21st.dev".data := noColon_host hall
    rcases hport with rfl | ⟨ds, hne, hd, rfl⟩
    · rw [List.append_nil, splitFirstColon_none_iff.mpr hnc]
      exact hostOK_to_check hall
    · rw [splitFirstColon_append ds hnc]
      dsimp only
      simp only [Bool.and_eq_true]
      exact ⟨isDigits_iff.mpr ⟨hne, hd⟩, hostOK_to_check hall⟩

theorem isAllowedOrigin_iff (origin : Option String) :
    CorsHandler.isAllowedOrigin origin = true ↔ specAllowedAmended origin := by
  cases origin with
  | none => simp [CorsHandler.isAllowedOrigin, specAllowedAmended]
  | some s =>
    simp only [CorsHandler.isAllowedOrigin, specAllowedAmended]
    by_cases hemp : s.data.isEmpty
    · have h0 : s.data = [] := by simpa using hemp
      simp [h0, jsTrim]
    · rw [if_neg hemp]
      by_cases htr : (jsTrim s.data).isEmpty
      · have h1 : jsTrim s.data = [] := by simpa using htr
        simp [h1]
      · have h1 : ¬ jsTrim s.data = [] := by simpa using htr
        rw [if_neg htr]
        simp only [Bool.or_eq_true, matchHostPort_iff, match21st_iff]
        constructor
        · rintro ((( ⟨scheme, rest, hmem, hport, heq⟩ |
            ⟨scheme, rest, hmem, hport, heq⟩ ) |
            ⟨scheme, rest, hmem, hport, heq⟩ ) | h21)
          · exact Or.inr (Or.inl
              ⟨scheme, "localhost".data, rest, hmem, by simp, hport, heq⟩)
          · exact Or.inr (Or.inl
              ⟨scheme, "127.0.0.1".data, rest, hmem, by simp, hport, heq⟩)
          · exact Or.inr (Or.inl
              ⟨scheme, "[::1]".data, rest, hmem, by simp, hport, heq⟩)
          · exact Or.inr (Or.inr h21)
        · rintro (h0 | ⟨scheme, host, rest, hmem, hhost, hport, heq⟩ | h21)
          · exact absurd h0 h1
          · simp only [List.mem_cons, List.not_mem_nil, or_false] at hhost
            rcases hhost with rfl | rfl | rfl
            · exact Or.inl (Or.inl (Or.inl ⟨scheme, rest, hmem, hport, heq⟩))
            · exact Or.inl (Or.inl (Or.inr ⟨scheme, rest, hmem, hport, heq⟩))
            · exact Or.inl (Or.inr ⟨scheme, rest, hmem, hport, heq⟩)
          · exact Or.inr h21

/-- C6 (amended): `CorsHandler.isAllowedOrigin` returns true iff the origin
is absent, or — after trimming JS whitespace — empty or matching
`http(s)://localhost`, `http(s)://127.0.0.1`, `http(s)://[::1]` (each with
optional port) or `http(s)://(subdomain.)*21st.dev` with optional port;
lookalike hosts and non-http(s) schemes always yield false. -/
theorem c6_isAllowedOrigin_characterization :
    (∀ origin, CorsHandler.isAllowedOrigin origin = true ↔ specAllowedAmended origin) ∧
    CorsHandler.isAllowedOrigin (some "https://fake21st.dev") = false ∧
    CorsHandler.isAllowedOrigin (some "https://21st.dev.evil.com") = false ∧
    CorsHandler.isAllowedOrigin (some "https://21st.devv") = false ∧
    CorsHandler.isAllowedOrigin (some "file:///etc/passwd") = false ∧
    CorsHandler.isAllowedOrigin (some "javascript:alert(1)") = false ∧
    CorsHandler.isAllowedOrigin (some "data:text/html,x") = false ∧
    CorsHandler.isAllowedOrigin (some "ftp://21st.dev") = false ∧
    CorsHandler.isAllowedOrigin (some "ws://localhost") = false :=
  ⟨isAllowedOrigin_iff, by decide, by decide, by decide, by decide, by decide,
    by decide, by decide, by decide⟩

/-- C6 counterexample to the claim as stated: a whitespace-only origin is
neither absent/empty nor a pattern match, yet the code allows it (the code
trims before testing; the claim's iff fails on `" "`). -/
theorem c6_counterexample :
    CorsHandler.isAllowedOrigin (some " ") = true ∧ ¬ specAllowedStrict (some " ") := by
  refine ⟨by decide, ?_⟩
  rintro (h | h | h)
  · exact absurd h (by decide)
  · obtain ⟨scheme, host, rest, hmem, _, _, heq⟩ := h
    have hd : " ".data = [' '] := rfl
    rw [hd] at heq
    simp only [schemePrefixes, List.mem_cons, List.not_mem_nil, or_false] at hmem
    rcases hmem with rfl | rfl
    · simp only [List.cons_append, List.nil_append] at heq
      injection heq with h1 _
      exact absurd h1 (by decide)
    · simp only [List.cons_append, List.nil_append] at heq
      injection heq with h1 _
      exact absurd h1 (by decide)
  · obtain ⟨scheme, labs, rest, hmem, _, _, heq⟩ := h
    have hd : " ".data = [' '] := rfl
    rw [hd] at heq
    simp only [schemePrefixes, List.mem_cons, List.not_mem_nil, or_false] at hmem
    rcases hmem with rfl | rfl
    · simp only [List.cons_append, List.nil_append] at heq
      injection heq with h1 _
      exact absurd h1 (by decide)
    · simp only [List.cons_append, List.nil_append] at heq
      injection heq with h1 _
      exact absurd h1 (by decide)

theorem mapGet_mapSet_self {β : Type} (m : List (String × β)) (k : String) (v : β) :
    mapGet (mapSet m k v) k = some v := by
  induction m with
  | nil => simp [mapGet, mapSet]
  | cons p rest ih =>
    obtain ⟨k', w⟩ := p
    by_cases h : k' = k
    · simp [mapGet, mapSet, h]
    · simp [mapGet, mapSet, h, ih]

theorem mapGet_mapSet_ne {β : Type} (m : List (String × β)) {k k' : String}
    (v : β) (h : k' ≠ k) : mapGet (mapSet m k v) k' = mapGet m k' := by
  induction m with
  | nil =>
    have hk : ¬ k = k' := fun hh => h hh.symm
    simp [mapGet, mapSet, hk]
  | cons p rest ih =>
    obtain ⟨k0, w⟩ := p
    by_cases h0 : k0 = k
    · subst h0
      have hk : ¬ k0 = k' := fun hh => h hh.symm
      simp [mapGet, mapSet, hk]
    · simp only [mapSet, if_neg h0]
      by_cases h1 : k0 = k'
      · simp [mapGet, h1]
      · simp [mapGet, h1, ih]

theorem checkEntry_reject {maxRequests : Nat} {windowMs : Int} {entry : List Int}
    {now t : Int} {rest : List Int}
    (hp : entry.filter (fun ts => now - windowMs < ts) = t :: rest)
    (ht : t ≠ 0) (hge : maxRequests ≤ (t :: rest).length) :
    checkEntry maxRequests windowMs entry now =
      (⟨false, 0, t + windowMs, some (max 1 (ceilDiv1000 (t + windowMs - now)))⟩,
       t :: rest) := by
  unfold checkEntry
  simp only [hp]
  rw [if_pos (show (t :: rest).length ≥ maxRequests from hge)]
  simp [ht]

theorem checkEntry_admit {maxRequests : Nat} {windowMs : Int} {entry : List Int}
    {now : Int}
    (hlt : (entry.filter (fun ts => now - windowMs < ts)).length < maxRequests) :
    (checkEntry maxRequests windowMs entry now).1.allowed = true ∧
    (checkEntry maxRequests windowMs entry now).1.remaining =
      (maxRequests : Int) - (entry.filter (fun ts => now - windowMs < ts)).length - 1 ∧
    (checkEntry maxRequests windowMs entry now).1.retryAfter = none ∧
    (checkEntry maxRequests windowMs entry now).2 =
      entry.filter (fun ts => now - windowMs < ts) ++ [now] := by
  unfold checkEntry
  rw [if_neg (by omega)]
  refine ⟨rfl, ?_, rfl, rfl⟩
  have : max 0 ((maxRequests : Int) -
      (entry.filter (fun ts => now - windowMs < ts)).length) =
      (maxRequests : Int) - (entry.filter (fun ts => now - windowMs < ts)).length := by
    have := hlt
    omega
  dsimp only
  omega

/-- C5 (amended): sliding-window admission control of `RateLimiter.check`.
Rejection (when the pruned count has reached `maxRequests` and the oldest
pruned timestamp is nonzero — the JS truthiness test sends a zero oldest
timestamp to the `now + windowMs` fallback instead) returns
`allowed = false`, `remaining = 0`, `resetTime = oldest + windowMs`,
`retryAfter = max 1 (ceil((resetTime - now)/1000))` and records nothing;
admission appends `now` and returns `remaining = maxRequests - count - 1`;
counters for distinct IPs are independent. -/
theorem c5_rate_limiter_check_contract :
    (∀ (rl : RateLimiter) (ip : String) (now t : Int) (rest : List Int),
      rl.pruned ip now = t :: rest → t ≠ 0 →
      rl.maxRequests ≤ (t :: rest).length →
      (rl.check ip now).1 = ⟨false, 0, t + rl.windowMs,
        some (max 1 (ceilDiv1000 (t + rl.windowMs - now)))⟩ ∧
      mapGet (rl.check ip now).2.entries ip = some (t :: rest)) ∧
    (∀ (rl : RateLimiter) (ip : String) (now : Int),
      (rl.pruned ip now).length < rl.maxRequests →
      (rl.check ip now).1.allowed = true ∧
      (rl.check ip now).1.remaining =
        (rl.maxRequests : Int) - (rl.pruned ip now).length - 1 ∧
      (rl.check ip now).1.retryAfter = none ∧
      mapGet (rl.check ip now).2.entries ip = some (rl.pruned ip now ++ [now])) ∧
    (∀ (rl : RateLimiter) (ip ip' : String) (now now' : Int), ip ≠ ip' →
      mapGet (rl.check ip now).2.entries ip' = mapGet rl.entries ip' ∧
      ((rl.check ip now).2.check ip' now').1 = (rl.check ip' now').1) := by
  refine ⟨?_, ?_, ?_⟩
  · intro rl ip now t rest hp ht hge
    have hp' : ((mapGet rl.entries ip).getD []).filter
        (fun ts => now - rl.windowMs < ts) = t :: rest := hp
    have hres := checkEntry_reject hp' ht hge
    constructor
    · simp only [RateLimiter.check, hres]
    · simp only [RateLimiter.check, hres]
      exact mapGet_mapSet_self _ _ _
  · intro rl ip now hlt
    have hlt' : (((mapGet rl.entries ip).getD []).filter
        (fun ts => now - rl.windowMs < ts)).length < rl.maxRequests := hlt
    have hres := checkEntry_admit hlt' 
    obtain ⟨h1, h2, h3, h4⟩ := hres
    refine ⟨?_, ?_, ?_, ?_⟩
    · simpa only [RateLimiter.check] using h1
    · simpa only [RateLimiter.check] using h2
    · simpa only [RateLimiter.check] using h3
    · simp only [RateLimiter.check, h4]
      exact mapGet_mapSet_self _ _ _
  · intro rl ip ip' now now' hne
    have hget : mapGet (rl.check ip now).2.entries ip' = mapGet rl.entries ip' := by
      simp only [RateLimiter.check]
      exact mapGet_mapSet_ne _ _ (fun hh => hne hh.symm)
    refine ⟨hget, ?_⟩
    show (RateLimiter.check _ ip' now').1 = _
    simp only [RateLimiter.check]
    rw [mapGet_mapSet_ne _ _ (fun hh => hne hh.symm)]

/-- C5 witness: a concrete rejection and a concrete admission exercising
the amended contract. -/
theorem c5_witness :
    ((⟨1, 60000, [("a", [5])]⟩ : RateLimiter).pruned "a" 10 = [5] ∧ (5 : Int) ≠ 0 ∧
      (1 : Nat) ≤ [(5 : Int)].length ∧
      ((⟨1, 60000, [("a", [5])]⟩ : RateLimiter).check "a" 10).1 =
        ⟨false, 0, 60005, some 60⟩) ∧
    ((⟨10, 60000, []⟩ : RateLimiter).pruned "b" 0 = [] ∧
      (((⟨10, 60000, []⟩ : RateLimiter).pruned "b" 0).length < 10) ∧
      ((⟨10, 60000, []⟩ : RateLimiter).check "b" 0).1.allowed = true) := by
  refine ⟨⟨by decide, by decide, by decide, ?_⟩, ⟨by decide, by decide, ?_⟩⟩
  · have h := (c5_rate_limiter_check_contract.1
      (⟨1, 60000, [("a", [5])]⟩ : RateLimiter) "a" 10 5 [] (by decide) (by decide)
      (by decide)).1
    rw [h]
    decide
  · exact ((c5_rate_limiter_check_contract.2.1
      (⟨10, 60000, []⟩ : RateLimiter) "b" 0 (by decide))).1

/-- C5 counterexample to the claim as stated: with a stored oldest
timestamp equal to `0` (reachable by a check at time 0), the rejection's
`resetTime` is `now + windowMs`, not `oldestTimestamp + windowMs`, because
`0` is falsy in JS. -/
theorem c5_counterexample :
    let rl1 := ((⟨1, 60000, []⟩ : RateLimiter).check "a" 0).2
    rl1.pruned "a" 5 = [0] ∧
    ((rl1.check "a" 5).1.allowed = false) ∧
    (rl1.check "a" 5).1.resetTime = 60005 ∧
    (0 : Int) + rl1.windowMs = 60000 ∧ (60005 : Int) ≠ 60000 := by
  refine ⟨by decide, by decide, by decide, by decide, by decide⟩

theorem checkEntry_len {maxRequests : Nat} {windowMs : Int} {entry : List Int}
    {now : Int} (h : entry.length ≤ maxRequests) :
    ((checkEntry maxRequests windowMs entry now).2).length ≤ maxRequests := by
  unfold checkEntry
  by_cases hc : (entry.filter (fun ts => now - windowMs < ts)).length ≥ maxRequests
  · rw [if_pos hc]
    exact le_trans (List.length_filter_le _ _) h
  · rw [if_neg hc]
    simp only [List.length_append, List.length_cons, List.length_nil]
    omega

theorem checkEntry_fresh {maxRequests : Nat} {windowMs : Int} {entry : List Int}
    {now : Int} (hw : 0 < windowMs) :
    ∀ ts ∈ (checkEntry maxRequests windowMs entry now).2, now - windowMs < ts := by
  intro ts hmem
  unfold checkEntry at hmem
  by_cases hc : (entry.filter (fun ts => now - windowMs < ts)).length ≥ maxRequests
  · rw [if_pos hc] at hmem
    have := (List.mem_filter.mp hmem).2
    simpa using this
  · rw [if_neg hc] at hmem
    rcases List.mem_append.mp hmem with h1 | h1
    · have := (List.mem_filter.mp h1).2
      simpa using this
    · simp only [List.mem_singleton] at h1
      subst h1
      omega

theorem check_preserves_inv {rl : RateLimiter} {ip : String} {now : Int}
    (h : rlInvariant rl) : rlInvariant (rl.check ip now).2 := by
  intro ip'
  by_cases he : ip' = ip
  · subst he
    simp only [RateLimiter.check]
    rw [mapGet_mapSet_self]
    exact checkEntry_len (h ip')
  · simp only [RateLimiter.check]
    rw [mapGet_mapSet_ne _ _ he]
    exact h ip'

theorem runTrace_inv {rl : RateLimiter} (trace : List (String × Int))
    (h : rlInvariant rl) : rlInvariant (rl.runTrace trace) := by
  induction trace generalizing rl with
  | nil => exact h
  | cons p rest ih =>
    obtain ⟨ip, now⟩ := p
    exact ih (check_preserves_inv h)

theorem runTrace_snoc (rl : RateLimiter) (trace : List (String × Int))
    (p : String × Int) :
    rl.runTrace (trace ++ [p]) = ((rl.runTrace trace).check p.1 p.2).2 := by
  induction trace generalizing rl with
  | nil =>
    obtain ⟨ip, now⟩ := p
    rfl
  | cons q rest ih =>
    obtain ⟨ip, now⟩ := q
    simpa [RateLimiter.runTrace] using ih (rl.check ip now).2

theorem runTrace_maxRequests (rl : RateLimiter) (trace : List (String × Int)) :
    (rl.runTrace trace).maxRequests = rl.maxRequests := by
  induction trace generalizing rl with
  | nil => rfl
  | cons p rest ih =>
    obtain ⟨ip, now⟩ := p
    exact ih (rl.check ip now).2

theorem runTrace_windowMs (rl : RateLimiter) (trace : List (String × Int)) :
    (rl.runTrace trace).windowMs = rl.windowMs := by
  induction trace generalizing rl with
  | nil => rfl
  | cons p rest ih =>
    obtain ⟨ip, now⟩ := p
    exact ih (rl.check ip now).2

/-- C10: after any sequence of `check` calls from a fresh limiter, every
stored timestamp list holds at most `maxRequests` entries, and immediately
after a check for an IP every timestamp stored for it is strictly newer
than `now - windowMs` (for a positive window). -/
theorem c10_rate_limiter_entry_invariant :
    (∀ (maxReq : Nat) (windowMs : Int) (trace : List (String × Int)) (ip : String),
      ((mapGet (RateLimiter.runTrace ⟨maxReq, windowMs, []⟩ trace).entries ip).getD
        []).length ≤ maxReq) ∧
    (∀ (maxReq : Nat) (windowMs : Int) (trace : List (String × Int)) (ip : String)
      (now : Int), 0 < windowMs →
      ∀ ts ∈ (mapGet (RateLimiter.runTrace ⟨maxReq, windowMs, []⟩
          (trace ++ [(ip, now)])).entries ip).getD [], now - windowMs < ts) := by
  constructor
  · intro maxReq windowMs trace ip
    have hinv : rlInvariant (⟨maxReq, windowMs, []⟩ : RateLimiter) := by
      intro ip'
      simp [mapGet]
    have h := runTrace_inv trace hinv ip
    rwa [runTrace_maxRequests] at h
  · intro maxReq windowMs trace ip now hw ts hmem
    rw [runTrace_snoc] at hmem
    simp only [RateLimiter.check] at hmem
    rw [mapGet_mapSet_self] at hmem
    simp only [Option.getD_some] at hmem
    have hw' : 0 < (RateLimiter.runTrace ⟨maxReq, windowMs, []⟩ trace).windowMs := by
      rwa [runTrace_windowMs]
    have := checkEntry_fresh hw' ts hmem
    rwa [runTrace_windowMs] at this

/-- C10 witness: the freshness clause instantiated on a concrete trace. -/
theorem c10_witness :
    (0 : Int) < 60000 ∧
    ∀ ts ∈ (mapGet (RateLimiter.runTrace ⟨10, 60000, []⟩
        ([] ++ [("a", 5)])).entries "a").getD [], (5 : Int) - 60000 < ts :=
  ⟨by decide, c10_rate_limiter_entry_invariant.2 10 60000 [] "a" 5 (by decide)⟩

theorem mapDelete_length_le {β : Type} (m : List (String × β)) (k : String) :
    (mapDelete m k).length ≤ m.length := by
  induction m with
  | nil => simp [mapDelete]
  | cons p rest ih =>
    obtain ⟨k', v⟩ := p
    by_cases h : k' = k
    · simp [mapDelete, h]
    · simp only [mapDelete, if_neg h, List.length_cons]
      omega

theorem mapDelete_length_present {β : Type} {m : List (String × β)} {k : String}
    {v : β} (h : mapGet m k = some v) :
    (mapDelete m k).length + 1 = m.length := by
  induction m with
  | nil => simp [mapGet] at h
  | cons p rest ih =>
    obtain ⟨k', w⟩ := p
    by_cases hk : k' = k
    · simp [mapDelete, hk]
    · simp only [mapGet, if_neg hk] at h
      simp only [mapDelete, if_neg hk, List.length_cons]
      rw [← ih h]

theorem mapGet_mapDelete_none {β : Type} {m : List (String × β)} {key : String}
    (h : mapGet m key = none) (k0 : String) :
    mapGet (mapDelete m k0) key = none := by
  induction m with
  | nil => simp [mapGet, mapDelete]
  | cons p rest ih =>
    obtain ⟨k', v⟩ := p
    simp only [mapGet] at h
    by_cases hk : k' = key
    · simp [hk] at h
    · rw [if_neg hk] at h
      by_cases h0 : k' = k0
      · simpa [mapDelete, h0] using h
      · simp only [mapDelete, if_neg h0, mapGet, if_neg hk]
        exact ih h

theorem mapGet_cons_none {β : Type} {k0 : String} {v0 : β}
    {tl : List (String × β)} {key : String}
    (h : mapGet ((k0, v0) :: tl) key = none) : mapGet tl key = none := by
  simp only [mapGet] at h
  by_cases hk : k0 = key
  · simp [hk] at h
  · rwa [if_neg hk] at h

theorem setCache_length {α : Type} {maxEntries : Nat}
    {cache : List (String × CacheEntry α)} {key : String}
    (entry : CacheEntry α) (hmax : 1 ≤ maxEntries) (h : cache.length ≤ maxEntries) :
    (deleteIfPresent (evictIfFull maxEntries cache key) key ++
      [(key, entry)]).length ≤ maxEntries := by
  by_cases hg : maxEntries ≤ cache.length ∧ (mapGet cache key).isNone
  · obtain ⟨hfull, habs⟩ := hg
    have habs' : mapGet cache key = none := by
      cases hx : mapGet cache key with
      | none => rfl
      | some _ => rw [hx] at habs; simp at habs
    cases cache with
    | nil =>
      simp at hfull
      omega
    | cons p tl =>
      obtain ⟨k0, v0⟩ := p
      have hev : evictIfFull maxEntries ((k0, v0) :: tl) key = tl := by
        unfold evictIfFull
        rw [if_pos ⟨hfull, habs⟩]
        simp [mapDelete]
      have htl : mapGet tl key = none := mapGet_cons_none habs'
      have hdp : deleteIfPresent tl key = tl := by
        unfold deleteIfPresent
        rw [htl]
        simp
      rw [hev, hdp]
      simp only [List.length_append, List.length_cons, List.length_nil] at h ⊢
      omega
  · have hev : evictIfFull maxEntries cache key = cache := by
      unfold evictIfFull
      rw [if_neg hg]
    rw [hev]
    by_cases hp : (mapGet cache key).isSome
    · obtain ⟨w, hw⟩ := Option.isSome_iff_exists.mp hp
      have hdp : deleteIfPresent cache key = mapDelete cache key := by
        unfold deleteIfPresent
        rw [if_pos hp]
      rw [hdp]
      have := mapDelete_length_present hw
      simp only [List.length_append, List.length_cons, List.length_nil]
      omega
    · have hdp : deleteIfPresent cache key = cache := by
        unfold deleteIfPresent
        rw [if_neg hp]
      rw [hdp]
      have habs : (mapGet cache key).isNone := by
        cases hx : mapGet cache key with
        | none => rfl
        | some w => rw [hx] at hp; simp at hp
      have hlt : ¬ maxEntries ≤ cache.length := fun hle => hg ⟨hle, habs⟩
      simp only [List.length_append, List.length_cons, List.length_nil]
      omega

theorem ApiCache.set_length {α : Type} {c : ApiCache α} {key : String}
    {v : α} {ttl : Option Int} {now : Int} (hmax : 1 ≤ c.maxEntries)
    (h : c.cache.length ≤ c.maxEntries) :
    (c.set key v ttl now).cache.length ≤ c.maxEntries :=
  setCache_length _ hmax h

theorem ApiCache.get_length {α : Type} (c : ApiCache α) (key : String)
    (now : Int) : ((c.get key now).2).cache.length ≤ c.cache.length := by
  unfold ApiCache.get
  cases hx : mapGet c.cache key with
  | none => simp
  | some entry =>
    dsimp only
    by_cases he : now > entry.timestamp + entry.ttl * 1000
    · rw [if_pos he]
      simpa using mapDelete_length_le c.cache key
    · rw [if_neg he]
      have := mapDelete_length_present hx
      simp only [List.length_append, List.length_cons, List.length_nil]
      omega

theorem applyOp_maxEntries {α : Type} (c : ApiCache α) (op : CacheOp α) :
    (c.applyOp op).maxEntries = c.maxEntries := by
  cases op with
  | set k v t n => rfl
  | get k n =>
    show ((c.get k n).2).maxEntries = c.maxEntries
    unfold ApiCache.get
    cases hx : mapGet c.cache k with
    | none => rfl
    | some entry =>
      dsimp only
      by_cases he : n > entry.timestamp + entry.ttl * 1000
      · rw [if_pos he]
      · rw [if_neg he]

theorem applyOp_length {α : Type} {c : ApiCache α} (op : CacheOp α)
    (hmax : 1 ≤ c.maxEntries) (h : c.cache.length ≤ c.maxEntries) :
    (c.applyOp op).cache.length ≤ c.maxEntries := by
  cases op with
  | set k v t n => exact ApiCache.set_length hmax h
  | get k n => exact le_trans (ApiCache.get_length c k n) h

theorem applyOps_length {α : Type} (ops : List (CacheOp α)) {c : ApiCache α}
    (hmax : 1 ≤ c.maxEntries) (h : c.cache.length ≤ c.maxEntries) :
    (c.applyOps ops).cache.length ≤ c.maxEntries := by
  induction ops generalizing c with
  | nil => exact h
  | cons op rest ih =>
    show ((c.applyOp op).applyOps rest).cache.length ≤ c.maxEntries
    have hm := applyOp_maxEntries c op
    have := @ih (c.applyOp op) (by rw [hm]; exact hmax)
      (by rw [hm]; exact applyOp_length op hmax h)
    rwa [hm] at this

/-- C9 (amended to positive capacity): the cache size never exceeds
`maxEntries` over any operation sequence from a fresh cache when
`maxEntries ≥ 1`; a `set` of a new key at capacity evicts the first
(least-recently-used) entry before inserting; insertion or update always
appends the key at the most-recently-used position; a `get` of an
unexpired key refreshes its recency by moving it to the end. -/
theorem c9_api_cache_lru_bound :
    (∀ (α : Type) (m : Nat) (ttl : Int) (ops : List (CacheOp α)), 1 ≤ m →
      (ApiCache.applyOps ⟨[], m, ttl, 0, 0⟩ ops).cache.length ≤ m) ∧
    (∀ (α : Type) (c : ApiCache α) (key : String) (v : α) (ttl : Option Int)
      (now : Int), c.cache.length = c.maxEntries → 1 ≤ c.maxEntries →
      mapGet c.cache key = none →
      (c.set key v ttl now).cache =
        c.cache.tail ++ [(key, ⟨v, now, ttl.getD c.defaultTtl⟩)]) ∧
    (∀ (α : Type) (c : ApiCache α) (key : String) (v : α) (ttl : Option Int)
      (now : Int),
      (c.set key v ttl now).cache.getLast? =
        some (key, ⟨v, now, ttl.getD c.defaultTtl⟩)) ∧
    (∀ (α : Type) (c : ApiCache α) (key : String) (now : Int)
      (entry : CacheEntry α), mapGet c.cache key = some entry →
      ¬ now > entry.timestamp + entry.ttl * 1000 →
      (c.get key now).1 = some entry.data ∧
      (c.get key now).2.cache = mapDelete c.cache key ++ [(key, entry)] ∧
      (c.get key now).2.hits = c.hits + 1) := by
  refine ⟨?_, ?_, ?_, ?_⟩
  · intro α m ttl ops hm
    exact applyOps_length ops hm (by simp)
  · intro α c key v ttl now hlen hm habs
    show deleteIfPresent (evictIfFull c.maxEntries c.cache key) key ++ _ = _
    cases hc : c.cache with
    | nil =>
      rw [hc] at hlen
      simp at hlen
      omega
    | cons p tl =>
      obtain ⟨k0, v0⟩ := p
      rw [hc] at hlen habs
      have hfull : c.maxEntries ≤ ((k0, v0) :: tl).length := le_of_eq hlen.symm
      have habsb : (mapGet ((k0, v0) :: tl) key).isNone := by rw [habs]; rfl
      have hev : evictIfFull c.maxEntries ((k0, v0) :: tl) key = tl := by
        unfold evictIfFull
        rw [if_pos ⟨hfull, habsb⟩]
        simp [mapDelete]
      have htl : mapGet tl key = none := mapGet_cons_none habs
      have hdp : deleteIfPresent tl key = tl := by
        unfold deleteIfPresent
        rw [htl]
        simp
      rw [hev, hdp]
      rfl
  · intro α c key v ttl now
    show (deleteIfPresent (evictIfFull c.maxEntries c.cache key) key ++
      [(key, (⟨v, now, ttl.getD c.defaultTtl⟩ : CacheEntry α))]).getLast? = _
    simp
  · intro α c key now entry hx hne
    unfold ApiCache.get
    rw [hx]
    dsimp only
    rw [if_neg hne]
    exact ⟨rfl, rfl, rfl⟩

/-- C9 witness: at capacity 1, setting a new key evicts the resident
entry and places the new key at the most-recently-used position. -/
theorem c9_witness :
    ((⟨[("a", ⟨1, 0, 300⟩)], 1, 300, 0, 0⟩ : ApiCache Nat).cache.length =
      (⟨[("a", ⟨1, 0, 300⟩)], 1, 300, 0, 0⟩ : ApiCache Nat).maxEntries) ∧
    (1 ≤ (⟨[("a", ⟨1, 0, 300⟩)], 1, 300, 0, 0⟩ : ApiCache Nat).maxEntries) ∧
    mapGet (⟨[("a", ⟨1, 0, 300⟩)], 1, 300, 0, 0⟩ : ApiCache Nat).cache "b" = none ∧
    ((⟨[("a", ⟨1, 0, 300⟩)], 1, 300, 0, 0⟩ : ApiCache Nat).set "b" 2 none 5).cache =
      [("b", ⟨2, 5, 300⟩)] := by
  refine ⟨by decide, by decide, by decide, ?_⟩
  have h := c9_api_cache_lru_bound.2.1 Nat
    (⟨[("a", ⟨1, 0, 300⟩)], 1, 300, 0, 0⟩ : ApiCache Nat) "b" 2 none 5
    (by decide) (by decide) (by decide)
  rw [h]
  decide

/-- C9 counterexample to the claim as stated: with `maxEntries = 0` a
single `set` leaves one entry, exceeding the configured capacity (the
first-key eviction is a no-op on an empty map and the insert is
unconditional). -/
theorem c9_counterexample :
    ((⟨[], 0, 300, 0, 0⟩ : ApiCache Nat).applyOps
      [CacheOp.set "a" 1 none 0]).cache.length >
    (⟨[], 0, 300, 0, 0⟩ : ApiCache Nat).maxEntries := by
  decide

theorem parseBodyGo_ok (maxBodySize : Nat) :
    ∀ (chunks : List (List Char)) (currentSize : Nat) (acc : List Char),
    currentSize + (chunks.map List.length).sum ≤ maxBodySize →
    parseBodyGo maxBodySize currentSize acc chunks = .ok (acc ++ chunks.flatten) := by
  intro chunks
  induction chunks with
  | nil =>
    intro currentSize acc h
    simp [parseBodyGo]
  | cons c cs ih =>
    intro currentSize acc h
    simp only [List.map_cons, List.sum_cons] at h
    unfold parseBodyGo
    rw [if_neg (by omega)]
    rw [ih (currentSize + c.length) (acc ++ c) (by omega)]
    simp

theorem parseBodyGo_err (maxBodySize : Nat) :
    ∀ (chunks : List (List Char)) (currentSize : Nat) (acc : List Char),
    currentSize ≤ maxBodySize →
    maxBodySize < currentSize + (chunks.map List.length).sum →
    ∃ k, (∀ i ≤ k, currentSize + (((chunks.take i).map List.length).sum) ≤ maxBodySize) ∧
      maxBodySize < currentSize + (((chunks.take (k + 1)).map List.length).sum) ∧
      parseBodyGo maxBodySize currentSize acc chunks =
        .error ⟨maxBodySize, currentSize + (((chunks.take (k + 1)).map List.length).sum)⟩ := by
  intro chunks
  induction chunks with
  | nil =>
    intro currentSize acc hcur hover
    simp at hover
    omega
  | cons c cs ih =>
    intro currentSize acc hcur hover
    simp only [List.map_cons, List.sum_cons] at hover
    by_cases hc : currentSize + c.length > maxBodySize
    · refine ⟨0, ?_, ?_, ?_⟩
      · intro i hi
        interval_cases i
        simpa using hcur
      · simpa using hc
      · unfold parseBodyGo
        rw [if_pos hc]
        simp
    · push_neg at hc
      obtain ⟨k, hks, hkv, hke⟩ := ih (currentSize + c.length) (acc ++ c) hc (by omega)
      refine ⟨k + 1, ?_, ?_, ?_⟩
      · intro i hi
        cases i with
        | zero => simpa using hcur
        | succ j =>
          have hj : j ≤ k := by omega
          have := hks j hj
          simp only [List.take_succ_cons, List.map_cons, List.sum_cons]
          omega
      · have := hkv
        simp only [List.take_succ_cons, List.map_cons, List.sum_cons]
        omega
      · unfold parseBodyGo
        rw [if_neg (by omega), hke]
        simp only [List.take_succ_cons, List.map_cons, List.sum_cons]
        rw [Nat.add_assoc]

theorem validate_true_snd {m : SessionTokenManager} {t : String} {now : Int}
    (h : (m.validate t now).1 = true) : (m.validate t now).2 = m := by
  by_cases ht : t = ""
  · exfalso
    simp [SessionTokenManager.validate, ht] at h
  · cases hx : mapGet m.activeTokens t with
    | none =>
      exfalso
      simp [SessionTokenManager.validate, ht, hx] at h
    | some st =>
      by_cases he : now > st.expiresAt
      · exfalso
        simp [SessionTokenManager.validate, ht, hx, he] at h
      · simp [SessionTokenManager.validate, ht, hx, he]

/-- C1: the request handler has no trusted-mode bypass — a POST to /data
with `mcp=true` explicitly set and no token is rejected 401 with
`Missing session token` even while a continuation is pending, although
the repository's own tests (part_006, "should accept POST requests
without token when mcp=true") and the spec require the bypass. -/
theorem c1_mcp_true_does_not_bypass_token_check :
    (CallbackServer.handleRequest
      ⟨ServerState.busy, true, true, some "deadbeef", ⟨10, 60000, []⟩,
       ⟨[("deadbeef", ⟨"deadbeef", 0, 300000⟩)], 300000⟩, true, false⟩
      1048576
      ⟨"POST", some "/data?mcp=true", some "https://21st.dev", none,
       some "127.0.0.1", [['h', 'i']]⟩
      1000).response =
        ⟨401, "\x7b\"error\":\"Missing session token\"\x7d", none⟩ ∧
    (CallbackServer.handleRequest
      ⟨ServerState.busy, true, true, some "deadbeef", ⟨10, 60000, []⟩,
       ⟨[("deadbeef", ⟨"deadbeef", 0, 300000⟩)], 300000⟩, true, false⟩
      1048576
      ⟨"POST", some "/data?mcp=true", some "https://21st.dev", none,
       some "127.0.0.1", [['h', 'i']]⟩
      1000).resolved = none := by
  exact ⟨by decide, by decide⟩

/-- C2: for a previously generated token whose expiry has passed, the
handler answers 401 `Invalid session token`, not `Session token expired`:
`validate` purges the expired record before `getTokenInfo` is consulted,
so the expired branch of handleRequest is unreachable. A never-issued
token also gets `Invalid session token` (as claimed). -/
theorem c2_expired_token_reported_as_invalid :
    (CallbackServer.handleRequest
      ⟨ServerState.busy, true, true, some "aa", ⟨10, 60000, []⟩,
       ⟨[("aa", ⟨"aa", 0, 10⟩)], 300000⟩, true, false⟩
      1048576
      ⟨"POST", some "/data?token=aa", some "https://21st.dev", none,
       some "127.0.0.1", [['h', 'i']]⟩
      1000).response =
        ⟨401, "\x7b\"error\":\"Invalid session token\"\x7d", none⟩ ∧
    (CallbackServer.handleRequest
      ⟨ServerState.busy, true, true, some "aa", ⟨10, 60000, []⟩,
       ⟨[("aa", ⟨"aa", 0, 10⟩)], 300000⟩, true, false⟩
      1048576
      ⟨"POST", some "/data?token=zz", some "https://21st.dev", none,
       some "127.0.0.1", [['h', 'i']]⟩
      1000).response =
        ⟨401, "\x7b\"error\":\"Invalid session token\"\x7d", none⟩ := by
  exact ⟨by decide, by decide⟩

/-- C3: on a singleton server in BUSY state with a continuation pending, a
valid-token POST to /data answers 200 "success", resolves the continuation
with exactly the received body, invalidates the session token, disarms the
callback timeout and returns to IDLE (no shutdown); with no continuation
pending, the handler answers 500 "Server not ready", resolves nothing, and
leaves everything but the rate limiter untouched (nothing is buffered or
queued). -/
theorem c3_busy_resolve_and_idle_vs_not_ready :
    (∀ (s : CallbackServer) (maxB : Nat) (req : HandlerRequest) (now : Int)
      (t u : String),
      s.isSingletonInstance = true →
      s.state = ServerState.busy →
      s.promiseResolveSet = true →
      s.sessionToken = some t →
      req.method = "POST" →
      req.url = some u →
      startsWithL "/data".data u.data = true →
      CallbackServer.extractTokenFromUrl req.url = some t →
      CorsHandler.isAllowedOrigin req.origin = true →
      (s.rateLimiter.check (CallbackServer.getClientIp req) now).1.allowed = true →
      (s.sessionTokenManager.validate t now).1 = true →
      (req.chunks.map List.length).sum ≤ maxB →
      s.handleRequest maxB req now =
        ⟨⟨200, "success", none⟩, some (String.mk req.chunks.flatten),
         { s with
           rateLimiter := (s.rateLimiter.check (CallbackServer.getClientIp req) now).2,
           sessionTokenManager := s.sessionTokenManager.invalidate t,
           sessionToken := none,
           timeoutArmed := false,
           promiseResolveSet := false,
           state := ServerState.idle,
           inactivityArmed := true }⟩) ∧
    (∀ (s : CallbackServer) (maxB : Nat) (req : HandlerRequest) (now : Int)
      (t u : String),
      s.promiseResolveSet = false →
      req.method = "POST" →
      req.url = some u →
      startsWithL "/data".data u.data = true →
      CallbackServer.extractTokenFromUrl req.url = some t →
      CorsHandler.isAllowedOrigin req.origin = true →
      (s.rateLimiter.check (CallbackServer.getClientIp req) now).1.allowed = true →
      (s.sessionTokenManager.validate t now).1 = true →
      (req.chunks.map List.length).sum ≤ maxB →
      s.handleRequest maxB req now =
        ⟨⟨500, "Server not ready", none⟩, none,
         { s with
           rateLimiter :=
             (s.rateLimiter.check (CallbackServer.getClientIp req) now).2 }⟩) := by
  constructor
  · intro s maxB req now t u hsing hbusy hpend htok hmeth hurl hstart hext hcors
      hrate hval hsize
    have hparse : CallbackServer.parseBody maxB req.chunks = .ok req.chunks.flatten := by
      have := parseBodyGo_ok maxB req.chunks 0 [] (by omega)
      simpa [CallbackServer.parseBody] using this
    have hurlb : (match req.url with
        | some u => startsWithL "/data".data u.data
        | none => false) = true := by rw [hurl]; exact hstart
    unfold CallbackServer.handleRequest
    simp only [hcors, hmeth, hurlb, hext, hrate, hparse, htok, hsing, hpend, hval,
      validate_true_snd hval, not_true, if_false, Bool.false_eq_true,
      beq_self_eq_true, Bool.and_self, if_true, ite_true, ite_false, reduceCtorEq]
    simp [SessionTokenManager.invalidate]
  · intro s maxB req now t u hpend hmeth hurl hstart hext hcors hrate hval hsize
    have hparse : CallbackServer.parseBody maxB req.chunks = .ok req.chunks.flatten := by
      have := parseBodyGo_ok maxB req.chunks 0 [] (by omega)
      simpa [CallbackServer.parseBody] using this
    have hurlb : (match req.url with
        | some u => startsWithL "/data".data u.data
        | none => false) = true := by rw [hurl]; exact hstart
    unfold CallbackServer.handleRequest
    simp only [hcors, hmeth, hurlb, hext, hrate, hparse, hpend, hval,
      validate_true_snd hval, not_true, if_false, Bool.false_eq_true,
      beq_self_eq_true, Bool.and_self, if_true, ite_true, ite_false, reduceCtorEq]
    simp

/-- C3 witness: concrete busy singleton resolving a valid-token POST. -/
theorem c3_witness :
    CorsHandler.isAllowedOrigin (some "https://21st.dev") = true ∧
    CallbackServer.handleRequest
      ⟨ServerState.busy, true, true, some "deadbeef", ⟨10, 60000, []⟩,
       ⟨[("deadbeef", ⟨"deadbeef", 0, 300000⟩)], 300000⟩, true, false⟩
      1048576
      ⟨"POST", some "/data?token=deadbeef", some "https://21st.dev", none,
       some "127.0.0.1", [['h', 'i']]⟩
      1000 =
      ⟨⟨200, "success", none⟩,
       some (String.mk ([['h', 'i']] : List (List Char)).flatten),
       { (⟨ServerState.busy, true, true, some "deadbeef", ⟨10, 60000, []⟩,
          ⟨[("deadbeef", ⟨"deadbeef", 0, 300000⟩)], 300000⟩, true, false⟩ :
            CallbackServer) with
         rateLimiter :=
           ((⟨10, 60000, []⟩ : RateLimiter).check
             (CallbackServer.getClientIp
               ⟨"POST", some "/data?token=deadbeef", some "https://21st.dev", none,
                some "127.0.0.1", [['h', 'i']]⟩) 1000).2,
         sessionTokenManager :=
           (⟨[("deadbeef", ⟨"deadbeef", 0, 300000⟩)], 300000⟩ :
             SessionTokenManager).invalidate "deadbeef",
         sessionToken := none,
         timeoutArmed := false,
         promiseResolveSet := false,
         state := ServerState.idle,
         inactivityArmed := true }⟩ :=
  ⟨by decide,
   c3_busy_resolve_and_idle_vs_not_ready.1
    ⟨ServerState.busy, true, true, some "deadbeef", ⟨10, 60000, []⟩,
     ⟨[("deadbeef", ⟨"deadbeef", 0, 300000⟩)], 300000⟩, true, false⟩
    1048576
    ⟨"POST", some "/data?token=deadbeef", some "https://21st.dev", none,
     some "127.0.0.1", [['h', 'i']]⟩
    1000 "deadbeef" "/data?token=deadbeef"
    (by decide) (by decide) (by decide) (by decide) (by decide) (by decide)
    (by decide) (by decide) (by decide) (by decide) (by decide) (by decide)⟩

/-- C4: the body read aborts at the first chunk that pushes the running
byte count past the limit — every buffered prefix stays at or under the
limit — and the handler answers 413 with a JSON body naming the limit; a
body at or under the limit is delivered whole. -/
theorem c4_body_size_limit :
    (∀ (maxB : Nat) (chunks : List (List Char)),
      (chunks.map List.length).sum ≤ maxB →
      CallbackServer.parseBody maxB chunks = .ok chunks.flatten) ∧
    (∀ (maxB : Nat) (chunks : List (List Char)),
      maxB < (chunks.map List.length).sum →
      ∃ k, (∀ i ≤ k, (((chunks.take i).map List.length).sum ≤ maxB)) ∧
        maxB < (((chunks.take (k + 1)).map List.length).sum) ∧
        CallbackServer.parseBody maxB chunks =
          .error ⟨maxB, (((chunks.take (k + 1)).map List.length).sum)⟩) ∧
    (∀ (s : CallbackServer) (maxB : Nat) (req : HandlerRequest) (now : Int)
      (t u : String),
      req.method = "POST" → req.url = some u →
      startsWithL "/data".data u.data = true →
      CallbackServer.extractTokenFromUrl req.url = some t →
      CorsHandler.isAllowedOrigin req.origin = true →
      (s.rateLimiter.check (CallbackServer.getClientIp req) now).1.allowed = true →
      (s.sessionTokenManager.validate t now).1 = true →
      maxB < (req.chunks.map List.length).sum →
      (s.handleRequest maxB req now).response =
        ⟨413, "\x7b\"error\":\"Payload too large\",\"limit\":" ++
          Nat.repr maxB ++ "\x7d", none⟩ ∧
      (s.handleRequest maxB req now).resolved = none) := by
  refine ⟨?_, ?_, ?_⟩
  · intro maxB chunks hle
    have := parseBodyGo_ok maxB chunks 0 [] (by omega)
    simpa [CallbackServer.parseBody] using this
  · intro maxB chunks hover
    obtain ⟨k, hks, hkv, hke⟩ :=
      parseBodyGo_err maxB chunks 0 [] (by omega) (by omega)
    refine ⟨k, ?_, by omega, ?_⟩
    · intro i hi
      have := hks i hi
      omega
    · show parseBodyGo maxB 0 [] chunks = _
      rw [hke]
      simp
  · intro s maxB req now t u hmeth hurl hstart hext hcors hrate hval hover
    obtain ⟨k, hks, hkv, hke⟩ :=
      parseBodyGo_err maxB req.chunks 0 [] (by omega) (by omega)
    have hparse : CallbackServer.parseBody maxB req.chunks =
        .error ⟨maxB, 0 + (((req.chunks.take (k + 1)).map List.length).sum)⟩ := hke
    have hurlb : (match req.url with
        | some u => startsWithL "/data".data u.data
        | none => false) = true := by rw [hurl]; exact hstart
    unfold CallbackServer.handleRequest
    simp only [hcors, hmeth, hurlb, hext, hrate, hval, validate_true_snd hval,
      hparse, not_true, if_false, Bool.false_eq_true, beq_self_eq_true,
      Bool.and_self, if_true, ite_true, ite_false, reduceCtorEq]
    constructor <;> simp

/-- C4 witness: a two-byte body against a one-byte limit is rejected 413
with the limit in the JSON body. -/
theorem c4_witness :
    (1 : Nat) < ((([['h', 'i']]) : List (List Char)).map List.length).sum ∧
    (CallbackServer.handleRequest
      ⟨ServerState.busy, true, true, some "deadbeef", ⟨10, 60000, []⟩,
       ⟨[("deadbeef", ⟨"deadbeef", 0, 300000⟩)], 300000⟩, true, false⟩
      1
      ⟨"POST", some "/data?token=deadbeef", some "https://21st.dev", none,
       some "127.0.0.1", [['h', 'i']]⟩
      1000).response =
      ⟨413, "\x7b\"error\":\"Payload too large\",\"limit\":" ++
        Nat.repr 1 ++ "\x7d", none⟩ ∧
    (CallbackServer.handleRequest
      ⟨ServerState.busy, true, true, some "deadbeef", ⟨10, 60000, []⟩,
       ⟨[("deadbeef", ⟨"deadbeef", 0, 300000⟩)], 300000⟩, true, false⟩
      1
      ⟨"POST", some "/data?token=deadbeef", some "https://21st.dev", none,
       some "127.0.0.1", [['h', 'i']]⟩
      1000).resolved = none := by
  refine ⟨by decide, ?_, ?_⟩
  · exact (c4_body_size_limit.2.2
      ⟨ServerState.busy, true, true, some "deadbeef", ⟨10, 60000, []⟩,
       ⟨[("deadbeef", ⟨"deadbeef", 0, 300000⟩)], 300000⟩, true, false⟩
      1
      ⟨"POST", some "/data?token=deadbeef", some "https://21st.dev", none,
       some "127.0.0.1", [['h', 'i']]⟩
      1000 "deadbeef" "/data?token=deadbeef"
      (by decide) (by decide) (by decide) (by decide) (by decide) (by decide)
      (by decide) (by decide)).1
  · exact (c4_body_size_limit.2.2
      ⟨ServerState.busy, true, true, some "deadbeef", ⟨10, 60000, []⟩,
       ⟨[("deadbeef", ⟨"deadbeef", 0, 300000⟩)], 300000⟩, true, false⟩
      1
      ⟨"POST", some "/data?token=deadbeef", some "https://21st.dev", none,
       some "127.0.0.1", [['h', 'i']]⟩
      1000 "deadbeef" "/data?token=deadbeef"
      (by decide) (by decide) (by decide) (by decide) (by decide) (by decide)
      (by decide) (by decide)).2

theorem containsTraversal_of_raw {input : String}
    (h : containsSeq "..".data input.data = true ∨
      containsSeqCI "%2e%2e".data input.data = true ∨
      containsSeqCI "%252e%252e".data input.data = true) :
    PathValidator.containsTraversal input = true := by
  unfold PathValidator.containsTraversal
  simp only [List.any_cons, List.any_nil, Bool.or_eq_true, Bool.or_false]
  rcases h with h | h | h
  · exact Or.inl (Or.inl h)
  · exact Or.inr (Or.inr (Or.inl (Or.inl h)))
  · exact Or.inr (Or.inr (Or.inr (Or.inl (Or.inl h))))

/-- C7: any input containing a literal, singly, or doubly percent-encoded
`..` is rejected before resolution, for every base directory and every
behavior of the `path.resolve`/`fs.realpath` builtins; and whenever
`validate` succeeds, the returned normalized path equals the resolved
base path or extends it past the path separator. -/
theorem c7_path_validator_containment :
    (∀ (resolve1 : String → String) (resolve2 : String → String → String)
      (realpath : String → RealpathResult) (followSymlinks : Bool)
      (inputPath basePath : String),
      (containsSeq "..".data inputPath.data = true ∨
       containsSeqCI "%2e%2e".data inputPath.data = true ∨
       containsSeqCI "%252e%252e".data inputPath.data = true) →
      (PathValidator.validate resolve1 resolve2 realpath followSymlinks
        inputPath basePath).valid = false) ∧
    (∀ (resolve1 : String → String) (resolve2 : String → String → String)
      (realpath : String → RealpathResult) (followSymlinks : Bool)
      (inputPath basePath : String) (np : String),
      (PathValidator.validate resolve1 resolve2 realpath followSymlinks
        inputPath basePath).valid = true →
      (PathValidator.validate resolve1 resolve2 realpath followSymlinks
        inputPath basePath).normalizedPath = some np →
      np = resolve1 basePath ∨
        startsWithL ((resolve1 basePath) ++ "/").data np.data = true) := by
  constructor
  · intro resolve1 resolve2 realpath followSymlinks inputPath basePath h
    have hct := containsTraversal_of_raw h
    simp [PathValidator.validate, hct]
  · intro resolve1 resolve2 realpath followSymlinks inputPath basePath np hvalid hnp
    by_cases hct : PathValidator.containsTraversal inputPath
    · simp [PathValidator.validate, hct] at hvalid
    · simp only [PathValidator.validate, if_neg hct] at hvalid hnp
      cases hr : PathValidator.resolvePath resolve1 resolve2 realpath
          followSymlinks inputPath basePath with
      | error msg =>
        rw [hr] at hvalid
        simp at hvalid
      | ok resolvedPath =>
        rw [hr] at hvalid hnp
        dsimp only at hvalid hnp
        by_cases hcond : (!startsWithL ((resolve1 basePath) ++ "/").data
            resolvedPath.data && !(resolvedPath == resolve1 basePath)) = true
        · rw [if_pos hcond] at hvalid
          simp at hvalid
        · rw [if_neg hcond] at hnp
          have hnp' : resolvedPath = np := by
            simpa using hnp
          subst hnp'
          simp only [Bool.and_eq_true, Bool.not_eq_true', beq_eq_false_iff_ne,
            ne_eq, not_and, Bool.not_eq_false] at hcond
          by_cases hsw : startsWithL ((resolve1 basePath) ++ "/").data
              resolvedPath.data = true
          · exact Or.inr hsw
          · have : resolvedPath = resolve1 basePath := by
              by_contra hne
              exact hsw (by simpa [hne] using hcond)
            exact Or.inl this

/-- C7 witness: a literal `..` input is rejected under a concrete
resolver. -/
theorem c7_witness :
    containsSeq "..".data ("../etc" : String).data = true ∧
    (PathValidator.validate (fun b => b) (fun b i => b ++ "/" ++ i)
      (fun _ => RealpathResult.enoent) true "../etc" "/base").valid = false :=
  ⟨by decide,
   c7_path_validator_containment.1 (fun b => b) (fun b i => b ++ "/" ++ i)
    (fun _ => RealpathResult.enoent) true "../etc" "/base" (Or.inl (by decide))⟩

theorem startsWithL_append_right {p s : List Char} (e : List Char)
    (h : startsWithL p s = true) : startsWithL p (s ++ e) = true := by
  induction p generalizing s with
  | nil => simp [startsWithL]
  | cons a ps ih =>
    cases s with
    | nil => simp [startsWithL] at h
    | cons c cs =>
      simp only [startsWithL, Bool.and_eq_true, beq_iff_eq] at h
      simp only [List.cons_append, startsWithL, Bool.and_eq_true, beq_iff_eq]
      exact ⟨h.1, ih h.2⟩

theorem containsSeq_append_left {n h : List Char} (e : List Char)
    (hc : containsSeq n h = true) : containsSeq n (h ++ e) = true := by
  induction h with
  | nil =>
    simp only [containsSeq] at hc
    cases n with
    | nil =>
      cases e with
      | nil => exact hc
      | cons c cs => simp [containsSeq, startsWithL]
    | cons a as => simp [startsWithL] at hc
  | cons c cs ih =>
    simp only [containsSeq, Bool.or_eq_true] at hc
    rcases hc with hc | hc
    · simp only [List.cons_append, containsSeq, Bool.or_eq_true]
      exact Or.inl (startsWithL_append_right e hc)
    · simp only [List.cons_append, containsSeq, Bool.or_eq_true]
      exact Or.inr (ih hc)

/-- C8: `sanitizeUrl` throws on empty and whitespace-only input, throws
`Invalid URL format: ...` on unparseable input, throws a message
containing the word "protocol" for every parsed URL whose protocol is
outside the allow-list (default `http:`, `https:`), and returns a string
without throwing for every allowed URL — for any behavior of the `new
URL` builtin. -/
theorem c8_sanitize_url_protocol_allowlist :
    (∀ (parse : String → Option URLRec) (opts : Option (List String))
      (url : String) (parts : URLRec),
      url ≠ "" → String.mk (jsTrim url.data) ≠ "" →
      parse (String.mk (jsTrim url.data)) = some parts →
      parts.protocol ∉ opts.getD ["http:", "https:"] →
      ∃ msg, ShellSanitizer.sanitizeUrl parse opts url = .error msg ∧
        containsSeq "protocol".data msg.data = true) ∧
    (∀ (parse : String → Option URLRec) (opts : Option (List String)),
      ShellSanitizer.sanitizeUrl parse opts "" =
        .error "URL must be a non-empty string") ∧
    (∀ (parse : String → Option URLRec) (opts : Option (List String))
      (url : String), url ≠ "" → String.mk (jsTrim url.data) = "" →
      ShellSanitizer.sanitizeUrl parse opts url = .error "URL cannot be empty") ∧
    (∀ (parse : String → Option URLRec) (opts : Option (List String))
      (url : String), url ≠ "" → String.mk (jsTrim url.data) ≠ "" →
      parse (String.mk (jsTrim url.data)) = none →
      ShellSanitizer.sanitizeUrl parse opts url =
        .error ("Invalid URL format: " ++ String.mk (jsTrim url.data))) ∧
    (∀ (parse : String → Option URLRec) (opts : Option (List String))
      (url : String) (parts : URLRec),
      url ≠ "" → String.mk (jsTrim url.data) ≠ "" →
      parse (String.mk (jsTrim url.data)) = some parts →
      parts.protocol ∈ opts.getD ["http:", "https:"] →
      ShellSanitizer.sanitizeUrl parse opts url =
        .ok (encodeShellMetacharsInUrl parts)) := by
  refine ⟨?_, ?_, ?_, ?_, ?_⟩
  · intro parse opts url parts hne htr hparse hprot
    simp only [ShellSanitizer.sanitizeUrl]
    rw [if_neg hne, if_neg htr, hparse]
    dsimp only
    rw [if_neg hprot]
    refine ⟨_, rfl, ?_⟩
    have hdata : ("Invalid URL protocol: " ++ parts.protocol ++
        ". Allowed protocols: " ++ arrJoin ", " (opts.getD ["http:", "https:"])).data =
        (("Invalid URL protocol: ".data ++ parts.protocol.data) ++
          ". Allowed protocols: ".data) ++
          (arrJoin ", " (opts.getD ["http:", "https:"])).data := rfl
    rw [hdata]
    exact containsSeq_append_left _ (containsSeq_append_left _
      (containsSeq_append_left _ (by decide)))
  · intro parse opts
    simp [ShellSanitizer.sanitizeUrl]
  · intro parse opts url hne htr
    simp only [ShellSanitizer.sanitizeUrl]
    rw [if_neg hne, if_pos htr]
  · intro parse opts url hne htr hparse
    simp only [ShellSanitizer.sanitizeUrl]
    rw [if_neg hne, if_neg htr, hparse]
  · intro parse opts url parts hne htr hparse hprot
    simp only [ShellSanitizer.sanitizeUrl]
    rw [if_neg hne, if_neg htr, hparse]
    dsimp only
    rw [if_pos hprot]

/-- C8 witness: a concrete parser reporting `ftp:` yields a thrown
message containing "protocol". -/
theorem c8_witness :
    (" ftp://x " : String) ≠ "" ∧
    String.mk (jsTrim (" ftp://x " : String).data) ≠ "" ∧
    (fun s => if s = "ftp://x" then some (⟨"ftp:", "x", "ftp://x"⟩ : URLRec)
      else none) (String.mk (jsTrim (" ftp://x " : String).data)) =
      some (⟨"ftp:", "x", "ftp://x"⟩ : URLRec) ∧
    (⟨"ftp:", "x", "ftp://x"⟩ : URLRec).protocol ∉
      (none : Option (List String)).getD ["http:", "https:"] ∧
    ∃ msg, ShellSanitizer.sanitizeUrl
      (fun s => if s = "ftp://x" then some (⟨"ftp:", "x", "ftp://x"⟩ : URLRec)
        else none) none " ftp://x " = .error msg ∧
      containsSeq "protocol".data msg.data = true := by
  refine ⟨by decide, by decide, by decide, by decide, ?_⟩
  exact c8_sanitize_url_protocol_allowlist.1
    (fun s => if s = "ftp://x" then some (⟨"ftp:", "x", "ftp://x"⟩ : URLRec)
      else none) none " ftp://x " ⟨"ftp:", "x", "ftp://x"⟩
    (by decide) (by decide) (by decide) (by decide)
